import Mathlib

/-!
Verification development for the oxygengine-script-flow virtual machine
(file src/oxygengine-script-flow/src/vm.rs).

The Rust code is shallowly embedded:

* `Rc<RefCell<Value>>` references are modelled as indices (`Nat`) into an
  explicit heap (`Heap := List Value`); allocating `Rc::new(RefCell::new(v))`
  appends a cell, and aliasing is handle identity, exactly as the design
  notes of the specification describe.
* Rust `HashMap`s are modelled as association lists with
  insert-replaces-existing-key semantics (`AList.insert` / `AList.lookup`).
* Rust `BTreeMap<String, _>` is modelled as a key-sorted association list
  (`btreeInsert`).
* A Rust panic (process abort) is a distinguished outcome (`panicked`),
  kept separate from `Result::Err` values, because the specification
  distinguishes typed errors from aborting the process.
* `GUID` values are modelled as `Nat`; `GUID::default()` produces a fresh
  handle, modelled by a counter threaded through the `Vm` state.
* `petgraph::algo::toposort` is external library code whose source is not
  part of this repository; it is modelled from the spec as the Kahn
  algorithm (which the spec names explicitly).
-/

namespace ScriptFlow

/-- Association list with the lookup/insert semantics of a Rust `HashMap`:
`insert` removes any previous binding of the key, `lookup` finds the
(unique) binding. -/
def AList.lookup {κ β : Type} [BEq κ] (l : List (κ × β)) (k : κ) : Option β :=
  match l.find? (fun p => p.1 == k) with
  | some p => some p.2
  | none => none

/-- Remove every binding of key `k`. -/
def AList.eraseKey {κ β : Type} [BEq κ] (l : List (κ × β)) (k : κ) : List (κ × β) :=
  l.filter (fun p => p.1 != k)

/-- Insert a binding, replacing any existing binding of the same key
(models `HashMap::insert`). -/
def AList.insert {κ β : Type} [BEq κ] (l : List (κ × β)) (k : κ) (v : β) : List (κ × β) :=
  AList.eraseKey l k ++ [(k, v)]

/-- Modelled from the spec: the external interchange document tree
(`core::prefab::PrefabValue`, not part of the sources under review):
null / bool / number / string / sequence / mapping.  A mapping is a
collection of key-value pairs (keys are arbitrary documents at this
level; string-ness of keys is exactly what conversion must check).
`PrefabNumber` payloads pass through every conversion untouched and are
modelled as `Int`. -/
inductive PrefabValue where
  | null : PrefabValue
  | bool (b : Bool) : PrefabValue
  | number (n : Int) : PrefabValue
  | string (s : String) : PrefabValue
  | sequence (items : List PrefabValue) : PrefabValue
  | mapping (entries : List (PrefabValue × PrefabValue)) : PrefabValue
deriving Repr

/-- Script-flow runtime value (`enum Value` in vm.rs).  `List` and `Object`
hold heap handles (the Rust `Reference = Rc<RefCell<Value>>`); `Object` is a
`BTreeMap<String, Reference>`, modelled as a key-sorted association list. -/
inductive Value where
  | None : Value
  | Bool (b : Bool) : Value
  | Number (n : Int) : Value
  | String (s : String) : Value
  | List (items : List Nat) : Value
  | Object (entries : List (String × Nat)) : Value
deriving Repr, DecidableEq

/-- Heap of `Value` cells; a `Reference` is an index into it. -/
abbrev Heap := List Value

/-- Allocate a fresh cell (models `Rc::new(RefCell::new(v))`). -/
def Heap.alloc (h : Heap) (v : Value) : Nat × Heap :=
  (h.length, h ++ [v])

/-- Read the cell behind a handle. -/
def Heap.read (h : Heap) (r : Nat) : Option Value :=
  h.get? r

/-- Overwrite the cell behind a handle. -/
def Heap.write (h : Heap) (r : Nat) (v : Value) : Heap :=
  h.set r v

/-- Outcome of a computation that can abort the process (Rust panic)
but returns no typed error. -/
inductive COut (α : Type) where
  | ok (a : α) : COut α
  | panicked (msg : String) : COut α
deriving Repr, DecidableEq

/-- Insert into a `BTreeMap<String, _>` modelled as a key-sorted unique
association list: keeps keys strictly sorted, replaces existing key. -/
def btreeInsert (k : String) (v : Nat) : List (String × Nat) → List (String × Nat)
  | [] => [(k, v)]
  | (k2, v2) :: rest =>
    if k < k2 then (k, v) :: (k2, v2) :: rest
    else if k = k2 then (k, v) :: rest
    else (k2, v2) :: btreeInsert k v rest

mutual

/-- Translation of `impl From<PrefabValue> for Value` (vm.rs lines 25-53).
Sequence/mapping elements convert recursively, each wrapped in a freshly
allocated cell; a mapping key that is not a string hits the
`panic!("Mapping key is not a string: ...")` line, which aborts the
process (the code carries a TODO admitting an error should be returned
instead). -/
def Value.fromPrefab : PrefabValue → Heap → COut (Value × Heap)
  | PrefabValue.null, h => COut.ok (Value.None, h)
  | PrefabValue.bool b, h => COut.ok (Value.Bool b, h)
  | PrefabValue.number n, h => COut.ok (Value.Number n, h)
  | PrefabValue.string s, h => COut.ok (Value.String s, h)
  | PrefabValue.sequence items, h =>
    match fromPrefabSeq items h with
    | COut.ok (refs, h2) => COut.ok (Value.List refs, h2)
    | COut.panicked m => COut.panicked m
  | PrefabValue.mapping entries, h =>
    match fromPrefabMap entries [] h with
    | COut.ok (ps, h2) => COut.ok (Value.Object ps, h2)
    | COut.panicked m => COut.panicked m

/-- Sequence elements, in iteration order: convert, then allocate. -/
def fromPrefabSeq : List PrefabValue → Heap → COut (List Nat × Heap)
  | [], h => COut.ok ([], h)
  | v :: rest, h =>
    match Value.fromPrefab v h with
    | COut.ok (val, h2) =>
      let (r, h3) := Heap.alloc h2 val
      match fromPrefabSeq rest h3 with
      | COut.ok (refs, h4) => COut.ok (r :: refs, h4)
      | COut.panicked m => COut.panicked m
    | COut.panicked m => COut.panicked m

/-- Mapping entries, in iteration order, collected left-to-right into the
`BTreeMap` accumulator (a later duplicate key overwrites an earlier one,
as `collect` into a map does); a non-string key panics. -/
def fromPrefabMap :
    List (PrefabValue × PrefabValue) → List (String × Nat) → Heap →
      COut (List (String × Nat) × Heap)
  | [], acc, h => COut.ok (acc, h)
  | (PrefabValue.string ks, v) :: rest, acc, h =>
    match Value.fromPrefab v h with
    | COut.ok (val, h2) =>
      let (r, h3) := Heap.alloc h2 val
      fromPrefabMap rest (btreeInsert ks r acc) h3
    | COut.panicked m => COut.panicked m
  | (_, _) :: _, _, _ => COut.panicked "Mapping key is not a string"

end

mutual

/-- Translation of `impl Into<PrefabValue> for Value` (vm.rs lines 55-78).
List/object elements dereference their cell
(`v.as_ref().clone().into_inner()`) and convert recursively.  The Rust
recursion follows heap handles and need not terminate on cyclic
reference graphs, so the model consumes one unit of fuel per recursive
call; `none` means the fuel ran out or a handle was dangling, neither of
which happens on values produced by `Value.fromPrefab` when given enough
fuel. -/
def Value.intoPrefab : Nat → Heap → Value → Option PrefabValue
  | _, _, Value.None => some PrefabValue.null
  | _, _, Value.Bool b => some (PrefabValue.bool b)
  | _, _, Value.Number n => some (PrefabValue.number n)
  | _, _, Value.String s => some (PrefabValue.string s)
  | 0, _, Value.List _ => none
  | fuel + 1, h, Value.List refs =>
    match intoPrefabRefs fuel h refs with
    | some items => some (PrefabValue.sequence items)
    | none => none
  | 0, _, Value.Object _ => none
  | fuel + 1, h, Value.Object ps =>
    match intoPrefabEntries fuel h ps with
    | some entries => some (PrefabValue.mapping entries)
    | none => none

/-- Convert a list of handles back to documents. -/
def intoPrefabRefs : Nat → Heap → List Nat → Option (List PrefabValue)
  | _, _, [] => some []
  | 0, _, _ :: _ => none
  | fuel + 1, h, r :: rest =>
    match Heap.read h r with
    | some v =>
      match Value.intoPrefab fuel h v with
      | some d =>
        match intoPrefabRefs fuel h rest with
        | some ds => some (d :: ds)
        | none => none
      | none => none
    | none => none

/-- Convert object entries back to mapping entries with string keys. -/
def intoPrefabEntries : Nat → Heap → List (String × Nat) → Option (List (PrefabValue × PrefabValue))
  | _, _, [] => some []
  | 0, _, _ :: _ => none
  | fuel + 1, h, (k, r) :: rest =>
    match Heap.read h r with
    | some v =>
      match Value.intoPrefab fuel h v with
      | some d =>
        match intoPrefabEntries fuel h rest with
        | some ds => some ((PrefabValue.string k, d) :: ds)
        | none => none
      | none => none
    | none => none

end

mutual

/-- Computable structural size of a document, used as fuel for document
equality. -/
def docSize : PrefabValue → Nat
  | PrefabValue.null => 1
  | PrefabValue.bool _ => 1
  | PrefabValue.number _ => 1
  | PrefabValue.string _ => 1
  | PrefabValue.sequence items => 1 + docSizeList items
  | PrefabValue.mapping entries => 1 + docSizeMap entries

/-- Size of a sequence of documents. -/
def docSizeList : List PrefabValue → Nat
  | [] => 0
  | v :: rest => 1 + docSize v + docSizeList rest

/-- Size of a list of mapping entries. -/
def docSizeMap : List (PrefabValue × PrefabValue) → Nat
  | [] => 0
  | (k, v) :: rest => 1 + docSize k + docSize v + docSizeMap rest

end

mutual

/-- Modelled from the spec: equality of external interchange documents,
fuel-structural (see the wrapper `docEq`, which always supplies enough
fuel).  The external mapping type is a map (unique keys, insertion order
irrelevant), so two mappings are equal when they have the same number of
entries and every entry of the first occurs in the second — the map
comparison its backing store performs. -/
def docEqFuel : Nat → PrefabValue → PrefabValue → Bool
  | 0, _, _ => false
  | _ + 1, PrefabValue.null, PrefabValue.null => true
  | _ + 1, PrefabValue.bool a, PrefabValue.bool b => a == b
  | _ + 1, PrefabValue.number a, PrefabValue.number b => a == b
  | _ + 1, PrefabValue.string a, PrefabValue.string b => a == b
  | fuel + 1, PrefabValue.sequence a, PrefabValue.sequence b => docEqListFuel fuel a b
  | fuel + 1, PrefabValue.mapping a, PrefabValue.mapping b =>
    a.length == b.length && docEqMapSubFuel fuel a b
  | _ + 1, _, _ => false

/-- Pointwise equality of sequences. -/
def docEqListFuel : Nat → List PrefabValue → List PrefabValue → Bool
  | _, [], [] => true
  | 0, _, _ => false
  | fuel + 1, x :: xs, y :: ys => docEqFuel fuel x y && docEqListFuel fuel xs ys
  | _ + 1, _, _ => false

/-- Every entry of the first mapping occurs in the second. -/
def docEqMapSubFuel :
    Nat → List (PrefabValue × PrefabValue) → List (PrefabValue × PrefabValue) → Bool
  | _, [], _ => true
  | 0, _ :: _, _ => false
  | fuel + 1, (k, v) :: rest, b => docEqFindFuel fuel k v b && docEqMapSubFuel fuel rest b

/-- The entry `(k, v)` occurs (up to document equality) in the mapping. -/
def docEqFindFuel : Nat → PrefabValue → PrefabValue → List (PrefabValue × PrefabValue) → Bool
  | _, _, _, [] => false
  | 0, _, _, _ :: _ => false
  | fuel + 1, k, v, (k2, v2) :: rest =>
    (docEqFuel fuel k k2 && docEqFuel fuel v v2) || docEqFindFuel fuel k v rest

end

/-- Equality of external interchange documents (wrapper supplying enough
fuel). -/
def docEq (a b : PrefabValue) : Bool :=
  docEqFuel (docSize a + docSize b) a b

/-- Reference into the program description (`ast::Reference`): absent, by
id, or by name. -/
inductive AstRef where
  | None : AstRef
  | Guid (g : Nat) : AstRef
  | Named (n : String) : AstRef
deriving Repr, DecidableEq

/-- Data-dependency link (`ast::Link`): absent, or output `index` of node
`guid`. -/
inductive Link where
  | None : Link
  | NodeIndexed (guid : Nat) (index : Nat) : Link
deriving Repr, DecidableEq

/-- Payload of an `IfElse` node; only the two branch entry references are
used by the interpreter. -/
structure IfElseData where
  next_node_true : AstRef
  next_node_false : AstRef
deriving Repr, DecidableEq

/-- Payload of a `GetValue` node; the interpreter uses its `data` field
(a literal interchange document). -/
structure GetValueData where
  data : PrefabValue
deriving Repr

/-- Node type tag (`ast::NodeType`), with the variants the interpreter
handles.  `OtherNodeType` stands for any further variant of the external
AST; `step_event` rejects those through its wildcard arm. -/
inductive NodeType where
  | Halt : NodeType
  | Loop (body : AstRef) : NodeType
  | IfElse (d : IfElseData) : NodeType
  | Break : NodeType
  | Continue : NodeType
  | GetInstance : NodeType
  | GetGlobalVariable (r : AstRef) : NodeType
  | GetLocalVariable (r : AstRef) : NodeType
  | GetInput (index : Nat) : NodeType
  | SetOutput (index : Nat) : NodeType
  | GetValue (v : GetValueData) : NodeType
  | GetListItem (index : Nat) : NodeType
  | GetObjectItem (key : String) : NodeType
  | MutateValue : NodeType
  | CallOperation (r : AstRef) : NodeType
  | CallFunction (r : AstRef) : NodeType
  | CallMethod (typeRef : AstRef) (methodRef : AstRef) : NodeType
  | OtherNodeType : NodeType
deriving Repr

/-- One node of a construct graph (`ast::Node`): identity, name, type tag,
optional control successor, ordered input links. -/
structure Node where
  guid : Nat
  name : String
  node_type : NodeType
  next_node : AstRef
  input_links : List Link
deriving Repr

/-- A declared variable (`ast::Variable`): identity and name. -/
structure Variable where
  guid : Nat
  name : String
deriving Repr, DecidableEq

/-- An event definition (`ast::Event`). -/
structure EventDef where
  guid : Nat
  name : String
  input_constrains : List Unit
  output_constrains : List Unit
  «variables» : List Variable
  entry_node : AstRef
  nodes : List Node
deriving Repr

/-- A function definition (`ast::Function`). -/
structure FunctionDef where
  guid : Nat
  name : String
  input_constrains : List Unit
  output_constrains : List Unit
  «variables» : List Variable
  nodes : List Node
deriving Repr

/-- A method definition (`ast::Method`), used both for trait default
bodies and for type overrides. -/
structure MethodDef where
  guid : Nat
  name : String
  input_constrains : List Unit
  output_constrains : List Unit
  «variables» : List Variable
  nodes : List Node
deriving Repr

/-- A trait definition (`ast::Trait`): a set of method signatures with
default bodies. -/
structure TraitDef where
  guid : Nat
  name : String
  methods : List MethodDef
deriving Repr

/-- A type definition (`ast::Type`): trait implementations, each a trait
reference with the list of overriding methods. -/
structure TypeDef where
  guid : Nat
  name : String
  traits_implementation : List (AstRef × List MethodDef)
deriving Repr

/-- A native operation signature (`ast::Operation`). -/
structure OperationDef where
  guid : Nat
  name : String
  input_constrains : List Unit
  output_constrains : List Unit
deriving Repr

/-- The whole program description (`ast::Program`). -/
structure Program where
  events : List EventDef
  functions : List FunctionDef
  types : List TypeDef
  traits : List TraitDef
  «variables» : List Variable
  operations : List OperationDef
deriving Repr

/-- The typed error values of the interpreter (`enum VmError`), variant
for variant.  References carried inside errors are heap handles. -/
inductive VmError where
  | Message (s : String) : VmError
  | CompilationError (s : String) : VmError
  | WrongNumberOfInputs (expected provided : Nat) : VmError
  | WrongNumberOfOutputs (expected provided : Nat) : VmError
  | CouldNotRunEvent (s : String) : VmError
  | CouldNotCallFunction (r : AstRef) : VmError
  | CouldNotCallMethod (t m : AstRef) : VmError
  | EventDoesNotExists (r : AstRef) : VmError
  | NodeDoesNotExists (r : AstRef) : VmError
  | TypeDoesNotExists (r : AstRef) : VmError
  | TraitDoesNotExists (r : AstRef) : VmError
  | MethodDoesNotExists (r : AstRef) : VmError
  | FunctionDoesNotExists (r : AstRef) : VmError
  | TypeDoesNotImplementMethod (t m : AstRef) : VmError
  | InstanceDoesNotExists : VmError
  | GlobalVariableDoesNotExists (r : AstRef) : VmError
  | LocalVariableDoesNotExists (r : AstRef) : VmError
  | InputDoesNotExists (i : Nat) : VmError
  | OutputDoesNotExists (i : Nat) : VmError
  | StackUnderflow : VmError
  | OperationDoesNotExists (r : AstRef) : VmError
  | OperationIsNotRegistered (s : String) : VmError
  | IndexOutOfBounds (expected provided : Nat) (list : Nat) : VmError
  | ObjectKeyDoesNotExists (k : String) (obj : Nat) : VmError
  | ValueIsNotAList (r : Nat) : VmError
  | ValueIsNotAnObject (r : Nat) : VmError
  | ValueIsNotABool (r : Nat) : VmError
  | TryingToPerformInvalidNodeType (t : NodeType) : VmError
  | TryingToMutateBorrowedReference (src dst : Nat) : VmError
  | NodeNotFoundInExecutionPipeline (r : AstRef) : VmError
  | NodeIsNotALoop (r : AstRef) : VmError
  | NodeIsNotAnIfElse (r : AstRef) : VmError
  | TryingToBreakIfElse : VmError
  | TryingToContinueIfElse : VmError
  | ThereAreNoCachedNodeOutputs (r : AstRef) : VmError
  | ThereIsNoCachedNodeIndexedOutput (l : Link) : VmError
deriving Repr

/-- Error raised by a native operation (`enum VmOperationError`). -/
inductive VmOperationError where
  | CouldNotPerformOperation (message name : String) : VmOperationError
deriving Repr, DecidableEq

/-- Three-way outcome of running translated Rust: a value, a typed
`VmError` (Rust `Result::Err`), or a process abort (Rust panic). -/
inductive VOut (α : Type) where
  | ok (a : α) : VOut α
  | error (e : VmError) : VOut α
  | panicked (msg : String) : VOut α
deriving Repr

/-- In the Kahn algorithm, `x` can be emitted when no edge reaches it from a
node that is still unprocessed. -/
def noIncoming (edges : List (Nat × Nat)) (remaining : List Nat) (x : Nat) : Bool :=
  remaining.all (fun y => !(edges.contains (y, x)))

/-- Modelled from the spec: the topological sort the compiler runs
(`petgraph::algo::toposort`, external library code; the spec prescribes a
topological sort such as the Kahn algorithm, which this is).  Repeatedly
emits a remaining node with no incoming edge from a remaining node; when
none exists and nodes remain, the graph is cyclic and the sort fails. -/
def kahnAux (edges : List (Nat × Nat)) : Nat → List Nat → List Nat → Option (List Nat)
  | _, [], acc => some acc.reverse
  | 0, _ :: _, _ => none
  | fuel + 1, x :: xs, acc =>
    match (x :: xs).find? (noIncoming edges (x :: xs)) with
    | some y => kahnAux edges fuel ((x :: xs).erase y) (y :: acc)
    | none => none

/-- Topological sort of the graph on nodes `0 .. numNodes - 1`; the fuel
equals the node count, which is exactly the number of emissions the sort
can make, so the out-of-fuel branch of `kahnAux` is unreachable. -/
def toposort (numNodes : Nat) (edges : List (Nat × Nat)) : Option (List Nat) :=
  kahnAux edges numNodes (List.range numNodes) []

/-- Owner of an activation record (`enum VmContextOwner`). -/
inductive VmContextOwner where
  | Event (g : Nat) : VmContextOwner
  | Method (typeGuid methodGuid : Nat) : VmContextOwner
  | Function (g : Nat) : VmContextOwner
deriving Repr, DecidableEq

/-- Jump-stack marker (`enum VmJump`): the sentinel (optionally carrying a
calling node), a loop marker, or an if-else marker. -/
inductive VmJump where
  | None (caller : Option Nat) : VmJump
  | Loop (g : Nat) : VmJump
  | IfElse (g : Nat) : VmJump
deriving Repr, DecidableEq

/-- Activation record (`struct VmContext`).  Rust keeps the innermost
context at the END of the `contexts` vector; this model keeps it at the
HEAD of the list, so Rust `last`/`push`/`pop` become head operations. -/
structure VmContext where
  owner : VmContextOwner
  caller_node : Option Nat
  execution : List Nat
  current : Option Nat
  «instance» : Option Nat
  inputs : List Nat
  outputs : List Nat
  «variables» : List (Nat × Nat)
  jump_stack : List VmJump
  node_outputs : List (Nat × List Nat)
deriving Repr, DecidableEq

/-- A live event activation (`struct VmEvent`): context stack (innermost
first in this model) and final outputs. -/
structure VmEvent where
  contexts : List VmContext
  outputs : List Nat
deriving Repr, DecidableEq

/-- A registered native operation (`trait VmOperation`): inputs are heap
handles; the operation may read and extend the heap and returns output
handles or a typed operation error. -/
def VmOperationImpl : Type :=
  List Nat → Heap → Except VmOperationError (List Nat × Heap)

/-- The compiled engine (`struct Vm`), plus the two ambient pieces of the
Rust runtime this embedding makes explicit: the `Rc` cell heap and a
freshness counter modelling `GUID::default()`. -/
structure Vm where
  ast : Program
  operations : List (String × VmOperationImpl)
  «variables» : List (Nat × Nat)
  running_events : List (Nat × VmEvent)
  completed_events : List (Nat × List Nat)
  event_execution_order : List (Nat × List Nat)
  method_execution_order : List ((Nat × Nat) × List Nat)
  function_execution_order : List (Nat × List Nat)
  type_methods : List (Nat × List (Nat × (Nat × Bool)))
  end_nodes : List Nat
  heap : Heap
  guid_source : Nat

/-- The `nodes_map` of `Vm::new`: node guid to graph node index, nodes
added in list order (`graph.add_node` per node, collected into a map). -/
def buildNodesMap (nodes : List Node) : List (Nat × Nat) :=
  (nodes.enum).foldl (fun m p => AList.insert m p.2.guid p.1) []

/-- Edges contributed by the `next_node` field of one node, as in `Vm::new`:
a guid reference is looked up directly (a dangling guid hits `unwrap`,
a panic); a named reference is resolved by linear scan over the construct
with a `NodeDoesNotExists` error if unresolved. -/
def nextNodeEdges (allNodes : List Node) (nodesMap : List (Nat × Nat)) (node : Node) :
    VOut (List (Nat × Nat)) :=
  match node.next_node with
  | AstRef.None => VOut.ok []
  | AstRef.Guid g =>
    match AList.lookup nodesMap node.guid, AList.lookup nodesMap g with
    | some a, some b => VOut.ok [(a, b)]
    | _, _ => VOut.panicked "called unwrap on a None value"
  | AstRef.Named name =>
    match allNodes.find? (fun n => n.name == name) with
    | some n2 =>
      match AList.lookup nodesMap node.guid, AList.lookup nodesMap n2.guid with
      | some a, some b => VOut.ok [(a, b)]
      | _, _ => VOut.panicked "called unwrap on a None value"
    | none => VOut.error (VmError.NodeDoesNotExists node.next_node)

/-- Data-dependency edges from the input links of one node (producer to
consumer); dangling guids hit `unwrap` and panic. -/
def linkEdges (nodesMap : List (Nat × Nat)) (nodeGuid : Nat) :
    List Link → VOut (List (Nat × Nat))
  | [] => VOut.ok []
  | Link.None :: rest => linkEdges nodesMap nodeGuid rest
  | Link.NodeIndexed g _ :: rest =>
    match AList.lookup nodesMap g, AList.lookup nodesMap nodeGuid with
    | some a, some b =>
      match linkEdges nodesMap nodeGuid rest with
      | VOut.ok es => VOut.ok ((a, b) :: es)
      | VOut.error e => VOut.error e
      | VOut.panicked m => VOut.panicked m
    | _, _ => VOut.panicked "called unwrap on a None value"

/-- All edges of a construct graph in the order `Vm::new` adds them: per
node, the control edge first, then the data edges. -/
def collectEdges (allNodes : List Node) (nodesMap : List (Nat × Nat)) :
    List Node → VOut (List (Nat × Nat))
  | [] => VOut.ok []
  | n :: rest =>
    match nextNodeEdges allNodes nodesMap n with
    | VOut.ok e1 =>
      match linkEdges nodesMap n.guid n.input_links with
      | VOut.ok e2 =>
        match collectEdges allNodes nodesMap rest with
        | VOut.ok es => VOut.ok (e1 ++ e2 ++ es)
        | VOut.error e => VOut.error e
        | VOut.panicked m => VOut.panicked m
      | VOut.error e => VOut.error e
      | VOut.panicked m => VOut.panicked m
    | VOut.error e => VOut.error e
    | VOut.panicked m => VOut.panicked m

/-- Reverse lookup of `nodes_map`
(`nodes_map.iter().find(|(_, v)| **v == index)`), unwrapped by the code. -/
def revLookup (nodesMap : List (Nat × Nat)) (idx : Nat) : Option Nat :=
  match nodesMap.find? (fun p => p.2 == idx) with
  | some p => some p.1
  | none => none

/-- Reverse-map a whole index list back to guids; any failure is the
`unwrap` panic of the code. -/
def revLookupMany (nodesMap : List (Nat × Nat)) : List Nat → Option (List Nat)
  | [] => some []
  | i :: rest =>
    match revLookup nodesMap i with
    | some g =>
      match revLookupMany nodesMap rest with
      | some gs => some (g :: gs)
      | none => none
    | none => none

/-- Graph nodes with no outgoing edge
(`graph.externals(Direction::Outgoing)`), in index order. -/
def endNodeIdx (edges : List (Nat × Nat)) (numNodes : Nat) : List Nat :=
  (List.range numNodes).filter (fun i => !(edges.any (fun e => e.1 == i)))

/-- Compilation of one construct (event, function or method body), the
block `Vm::new` repeats verbatim for each of the three construct kinds:
build the graph (control edge per `next_node`, data edge per input link),
run the topological sort (cyclic graphs fail with the compilation error),
map sorted indices back to guids, and record the terminal nodes. -/
def compileOrder (nodes : List Node) : VOut (List Nat × List Nat) :=
  let nodesMap := buildNodesMap nodes
  match collectEdges nodes nodesMap nodes with
  | VOut.ok edges =>
    match toposort nodes.length edges with
    | some order =>
      match revLookupMany nodesMap order with
      | some guids =>
        match revLookupMany nodesMap (endNodeIdx edges nodes.length) with
        | some ends => VOut.ok (guids, ends)
        | none => VOut.panicked "called unwrap on a None value"
      | none => VOut.panicked "called unwrap on a None value"
    | none => VOut.error (VmError.CompilationError "Found flow graph to be cyclic")
  | VOut.error e => VOut.error e
  | VOut.panicked m => VOut.panicked m

/-- Trait resolution as `Vm::new` performs it: a `None` reference resolves
to nothing, a guid or name by linear scan over the declared traits. -/
def findTrait (p : Program) (r : AstRef) : Option TraitDef :=
  match r with
  | AstRef.None => none
  | AstRef.Guid g => p.traits.find? (fun t => t.guid == g)
  | AstRef.Named n => p.traits.find? (fun t => t.name == n)

/-- Dispatch-table rows of one type: per implemented trait, for every
method the trait declares, whether the type supplies an override (by
name); an unresolvable trait reference fails compilation. -/
def typeMethodsFold (p : Program) :
    List (AstRef × List MethodDef) → List (Nat × (Nat × Bool)) →
      VOut (List (Nat × (Nat × Bool)))
  | [], acc => VOut.ok acc
  | (traitRef, methods) :: rest, acc =>
    match findTrait p traitRef with
    | some tr =>
      let acc2 := tr.methods.foldl
        (fun m tm =>
          AList.insert m tm.guid (tr.guid, methods.any (fun mm => mm.name == tm.name)))
        acc
      typeMethodsFold p rest acc2
    | none => VOut.error (VmError.TraitDoesNotExists traitRef)

/-- The dispatch table over all types, built in declaration order. -/
def typeMethodsAll (p : Program) :
    List TypeDef → List (Nat × List (Nat × (Nat × Bool))) →
      VOut (List (Nat × List (Nat × (Nat × Bool))))
  | [], acc => VOut.ok acc
  | t :: rest, acc =>
    match typeMethodsFold p t.traits_implementation [] with
    | VOut.ok m => typeMethodsAll p rest (AList.insert acc t.guid m)
    | VOut.error e => VOut.error e
    | VOut.panicked msg => VOut.panicked msg

/-- Event compilation loop of `Vm::new`: orders keyed by event guid,
terminal nodes appended across events in order. -/
def compileEvents :
    List EventDef → List (Nat × List Nat) → List Nat →
      VOut (List (Nat × List Nat) × List Nat)
  | [], accMap, accEnds => VOut.ok (accMap, accEnds)
  | e :: rest, accMap, accEnds =>
    match compileOrder e.nodes with
    | VOut.ok (order, ends) =>
      compileEvents rest (AList.insert accMap e.guid order) (accEnds ++ ends)
    | VOut.error er => VOut.error er
    | VOut.panicked m => VOut.panicked m

/-- Function compilation loop of `Vm::new`, identical in shape to the
event loop. -/
def compileFunctions :
    List FunctionDef → List (Nat × List Nat) → List Nat →
      VOut (List (Nat × List Nat) × List Nat)
  | [], accMap, accEnds => VOut.ok (accMap, accEnds)
  | f :: rest, accMap, accEnds =>
    match compileOrder f.nodes with
    | VOut.ok (order, ends) =>
      compileFunctions rest (AList.insert accMap f.guid order) (accEnds ++ ends)
    | VOut.error er => VOut.error er
    | VOut.panicked m => VOut.panicked m

/-- Override selection of `Vm::new`: the method of the same name supplied
by the type, else the trait default. -/
def chooseMethod (methods : List MethodDef) (m : MethodDef) : MethodDef :=
  match methods.find? (fun mm => mm.name == m.name) with
  | some mm => mm
  | none => m

/-- Method compilation over the methods one trait declares for one type;
the order is keyed by (type guid, chosen method guid). -/
def compileTraitMethods (typeGuid : Nat) (methods : List MethodDef) :
    List MethodDef → List ((Nat × Nat) × List Nat) → List Nat →
      VOut (List ((Nat × Nat) × List Nat) × List Nat)
  | [], accMap, accEnds => VOut.ok (accMap, accEnds)
  | m :: rest, accMap, accEnds =>
    let chosen := chooseMethod methods m
    match compileOrder chosen.nodes with
    | VOut.ok (order, ends) =>
      compileTraitMethods typeGuid methods rest
        (AList.insert accMap (typeGuid, chosen.guid) order) (accEnds ++ ends)
    | VOut.error er => VOut.error er
    | VOut.panicked msg => VOut.panicked msg

/-- Method compilation over the trait implementations of one type; an
unresolvable trait reference is silently skipped here (this loop has no
else branch; the dispatch-table pass has already rejected it). -/
def compileImpls (p : Program) (typeGuid : Nat) :
    List (AstRef × List MethodDef) → List ((Nat × Nat) × List Nat) → List Nat →
      VOut (List ((Nat × Nat) × List Nat) × List Nat)
  | [], accMap, accEnds => VOut.ok (accMap, accEnds)
  | (traitRef, methods) :: rest, accMap, accEnds =>
    match findTrait p traitRef with
    | some tr =>
      match compileTraitMethods typeGuid methods tr.methods accMap accEnds with
      | VOut.ok (accMap2, accEnds2) => compileImpls p typeGuid rest accMap2 accEnds2
      | VOut.error er => VOut.error er
      | VOut.panicked msg => VOut.panicked msg
    | none => compileImpls p typeGuid rest accMap accEnds

/-- Method compilation over all types. -/
def compileTypes (p : Program) :
    List TypeDef → List ((Nat × Nat) × List Nat) → List Nat →
      VOut (List ((Nat × Nat) × List Nat) × List Nat)
  | [], accMap, accEnds => VOut.ok (accMap, accEnds)
  | t :: rest, accMap, accEnds =>
    match compileImpls p t.guid t.traits_implementation accMap accEnds with
    | VOut.ok (accMap2, accEnds2) => compileTypes p rest accMap2 accEnds2
    | VOut.error er => VOut.error er
    | VOut.panicked msg => VOut.panicked msg

/-- Global-variable store construction: one fresh `Value::None` cell per
declared variable, keyed by variable guid. -/
def allocVariables : List Variable → Heap → List (Nat × Nat) → List (Nat × Nat) × Heap
  | [], h, acc => (acc, h)
  | v :: rest, h, acc =>
    let (r, h2) := Heap.alloc h Value.None
    allocVariables rest h2 (AList.insert acc v.guid r)

/-- Translation of `Vm::new` (vm.rs lines 158-398): dispatch table, event
orders, method orders, function orders (each aborting construction on the
first failure), then the global variable store; the heap starts empty and
the handle counter at zero. -/
def Vm.new (ast : Program) : VOut Vm :=
  match typeMethodsAll ast ast.types [] with
  | VOut.ok type_methods =>
    match compileEvents ast.events [] [] with
    | VOut.ok (event_execution_order, ends1) =>
      match compileTypes ast ast.types [] ends1 with
      | VOut.ok (method_execution_order, ends2) =>
        match compileFunctions ast.functions [] ends2 with
        | VOut.ok (function_execution_order, end_nodes) =>
          let (vars, heap) := allocVariables ast.variables [] []
          VOut.ok
            { ast := ast
              operations := []
              «variables» := vars
              running_events := []
              completed_events := []
              event_execution_order := event_execution_order
              method_execution_order := method_execution_order
              function_execution_order := function_execution_order
              type_methods := type_methods
              end_nodes := end_nodes
              heap := heap
              guid_source := 0 }
        | VOut.error e => VOut.error e
        | VOut.panicked m => VOut.panicked m
      | VOut.error e => VOut.error e
      | VOut.panicked m => VOut.panicked m
    | VOut.error e => VOut.error e
    | VOut.panicked m => VOut.panicked m
  | VOut.error e => VOut.error e
  | VOut.panicked m => VOut.panicked m

/-- Does a node match an `ast::Reference` (guid or name; `None` matches
nothing)?  This is the scan every node lookup in vm.rs performs. -/
def nodeMatchesRef (r : AstRef) (n : Node) : Bool :=
  match r with
  | AstRef.None => false
  | AstRef.Guid g => n.guid == g
  | AstRef.Named name => n.name == name

/-- Translation of `VmEvent::get_node_outputs`: cached outputs of a node
in the innermost context. -/
def VmEvent.get_node_outputs (e : VmEvent) (guid : Nat) : Except VmError (List Nat) :=
  match e.contexts with
  | c :: _ =>
    match AList.lookup c.node_outputs guid with
    | some outputs => Except.ok outputs
    | none => Except.error (VmError.ThereAreNoCachedNodeOutputs (AstRef.Guid guid))
  | [] => Except.error (VmError.ThereAreNoCachedNodeOutputs (AstRef.Guid guid))

/-- Translation of `VmEvent::get_node_output`: one indexed cached output
reached through a link. -/
def VmEvent.get_node_output (e : VmEvent) (link : Link) : Except VmError Nat :=
  match link with
  | Link.NodeIndexed guid index =>
    match e.get_node_outputs guid with
    | Except.ok outs =>
      match outs.get? index with
      | some r => Except.ok r
      | none => Except.error (VmError.ThereIsNoCachedNodeIndexedOutput link)
    | Except.error err => Except.error err
  | Link.None => Except.error (VmError.ThereIsNoCachedNodeIndexedOutput link)

/-- Translation of `VmEvent::set_node_outputs`: cache outputs for a node
in the innermost context (silently a no-op without a context). -/
def VmEvent.set_node_outputs (e : VmEvent) (guid : Nat) (values : List Nat) : VmEvent :=
  match e.contexts with
  | c :: rest =>
    { e with contexts := { c with node_outputs := AList.insert c.node_outputs guid values } :: rest }
  | [] => e

/-- Translation of `VmEvent::set_node_output`. -/
def VmEvent.set_node_output (e : VmEvent) (guid : Nat) (value : Nat) : VmEvent :=
  e.set_node_outputs guid [value]

/-- Translation of `VmEvent::get_node`: resolve a node reference inside
the construct owning the innermost context. -/
def VmEvent.get_node (e : VmEvent) (reference : AstRef) (vm : Vm) : Except VmError Node :=
  match e.contexts with
  | c :: _ =>
    match c.owner with
    | VmContextOwner.Event event_guid =>
      match vm.ast.events.find? (fun ev => ev.guid == event_guid) with
      | some event =>
        match event.nodes.find? (nodeMatchesRef reference) with
        | some node => Except.ok node
        | none => Except.error (VmError.NodeDoesNotExists reference)
      | none => Except.error (VmError.EventDoesNotExists (AstRef.Guid event_guid))
    | VmContextOwner.Method type_guid method_guid =>
      match AList.lookup vm.type_methods type_guid with
      | some methods =>
        match AList.lookup methods method_guid with
        | some (trait_guid, is_impl) =>
          match vm.ast.types.find? (fun t => t.guid == type_guid) with
          | some type_ =>
            if is_impl then
              match type_.traits_implementation.findSome?
                  (fun p => p.2.find? (fun m => m.guid == method_guid)) with
              | some method =>
                match method.nodes.find? (nodeMatchesRef reference) with
                | some node => Except.ok node
                | none => Except.error (VmError.NodeDoesNotExists reference)
              | none => Except.error (VmError.MethodDoesNotExists (AstRef.Guid method_guid))
            else
              match vm.ast.traits.find? (fun t => t.guid == trait_guid) with
              | some trait_ =>
                match trait_.methods.find? (fun m => m.guid == method_guid) with
                | some method =>
                  match method.nodes.find? (nodeMatchesRef reference) with
                  | some node => Except.ok node
                  | none => Except.error (VmError.NodeDoesNotExists reference)
                | none => Except.error (VmError.MethodDoesNotExists (AstRef.Guid method_guid))
              | none => Except.error (VmError.TraitDoesNotExists (AstRef.Guid type_guid))
          | none => Except.error (VmError.TypeDoesNotExists (AstRef.Guid type_guid))
        | none =>
          Except.error (VmError.TypeDoesNotImplementMethod
            (AstRef.Guid type_guid) (AstRef.Guid method_guid))
      | none => Except.error (VmError.NodeDoesNotExists (AstRef.Guid type_guid))
    | VmContextOwner.Function function_guid =>
      match vm.ast.functions.find? (fun f => f.guid == function_guid) with
      | some func =>
        match func.nodes.find? (nodeMatchesRef reference) with
        | some node => Except.ok node
        | none => Except.error (VmError.NodeDoesNotExists reference)
      | none => Except.error (VmError.FunctionDoesNotExists (AstRef.Guid function_guid))
  | [] => Except.error (VmError.NodeDoesNotExists reference)

/-- Translation of `VmEvent::get_current_node`: the node the innermost
context points at, if any. -/
def VmEvent.get_current_node (e : VmEvent) (vm : Vm) : Option Node :=
  match e.contexts with
  | c :: _ =>
    match c.current with
    | some current =>
      match c.execution.get? current with
      | some node_guid =>
        match e.get_node (AstRef.Guid node_guid) vm with
        | Except.ok node => some node
        | Except.error _ => none
      | none => none
    | none => none
  | [] => none

/-- Translation of `VmEvent::go_to_node`: point the innermost context at
the position of the referenced node in its compiled order. -/
def VmEvent.go_to_node (e : VmEvent) (reference : AstRef) (vm : Vm) : Except VmError VmEvent :=
  match e.get_node reference vm with
  | Except.error err => Except.error err
  | Except.ok node =>
    match e.contexts with
    | c :: rest =>
      match c.execution.findIdx? (fun n => n == node.guid) with
      | some index => Except.ok { e with contexts := { c with current := some index } :: rest }
      | none => Except.error (VmError.NodeNotFoundInExecutionPipeline reference)
    | [] => Except.error (VmError.NodeNotFoundInExecutionPipeline reference)

/-- Recursion of `VmEvent::go_to_next_node`, fuel-structural: the fuel is
the context-stack depth, which bounds the recursion (each recursive call
pops one context). -/
def goToNextNodeFuel : Nat → VmEvent → VmEvent
  | 0, e => e
  | fuel + 1, e =>
    match e.contexts with
    | [] => e
    | c :: rest =>
      match c.current with
      | none => e
      | some current =>
        if current + 1 < c.execution.length then
          { e with contexts := { c with current := some (current + 1) } :: rest }
        else
          let e2 := goToNextNodeFuel fuel { e with contexts := rest }
          match c.caller_node with
          | some caller => e2.set_node_outputs caller c.outputs
          | none => { e2 with outputs := c.outputs }

/-- Translation of `VmEvent::go_to_next_node`: advance the innermost
context; falling off the end pops the context, recursively advances the
caller, and only then copies the popped outputs into the caller node
cache (or, for the root context, into the final event outputs). -/
def VmEvent.go_to_next_node (e : VmEvent) : VmEvent :=
  goToNextNodeFuel e.contexts.length e

/-- Translation of `VmEvent::push_jump_on_stack` (no-op without a
context). -/
def VmEvent.push_jump_on_stack (e : VmEvent) (jump : VmJump) : VmEvent :=
  match e.contexts with
  | c :: rest => { e with contexts := { c with jump_stack := jump :: c.jump_stack } :: rest }
  | [] => e

/-- Translation of `VmEvent::pop_jump_from_stack`: pop the top marker of
the innermost context, `StackUnderflow` when empty. -/
def VmEvent.pop_jump_from_stack (e : VmEvent) : Except VmError (VmJump × VmEvent) :=
  match e.contexts with
  | c :: rest =>
    match c.jump_stack with
    | j :: js => Except.ok (j, { e with contexts := { c with jump_stack := js } :: rest })
    | [] => Except.error VmError.StackUnderflow
  | [] => Except.error VmError.StackUnderflow

/-- Translation of `VmEvent::instance_value`. -/
def VmEvent.instance_value (e : VmEvent) : Except VmError Nat :=
  match e.contexts with
  | c :: _ =>
    match c.instance with
    | some inst => Except.ok inst
    | none => Except.error VmError.InstanceDoesNotExists
  | [] => Except.error VmError.InstanceDoesNotExists

/-- Translation of `VmEvent::input_value`. -/
def VmEvent.input_value (e : VmEvent) (index : Nat) : Except VmError Nat :=
  match e.contexts with
  | c :: _ =>
    match c.inputs.get? index with
    | some input => Except.ok input
    | none => Except.error (VmError.InputDoesNotExists index)
  | [] => Except.error (VmError.InputDoesNotExists index)

/-- Translation of `VmEvent::set_output_value`: replace output slot
`index` of the innermost context (the replaced handle is discarded by
every caller, so only the updated event is returned). -/
def VmEvent.set_output_value (e : VmEvent) (index : Nat) (value : Nat) :
    Except VmError VmEvent :=
  match e.contexts with
  | c :: rest =>
    if index < c.outputs.length then
      Except.ok { e with contexts := { c with outputs := c.outputs.set index value } :: rest }
    else Except.error (VmError.OutputDoesNotExists index)
  | [] => Except.error (VmError.OutputDoesNotExists index)

/-- Translation of `VmEvent::local_variable_value` (vm.rs lines
1187-1299), including its by-name method scan quirks, faithfully. -/
def VmEvent.local_variable_value (e : VmEvent) (reference : AstRef) (vm : Vm) :
    Except VmError Nat :=
  match e.contexts with
  | c :: _ =>
    match reference with
    | AstRef.None => Except.error (VmError.LocalVariableDoesNotExists reference)
    | AstRef.Guid guid =>
      match AList.lookup c.variables guid with
      | some value => Except.ok value
      | none => Except.error (VmError.LocalVariableDoesNotExists reference)
    | AstRef.Named name =>
      match c.owner with
      | VmContextOwner.Event event_guid =>
        match vm.ast.events.find? (fun ev => ev.guid == event_guid) with
        | some event =>
          match event.variables.find? (fun v => v.name == name) with
          | some var =>
            match AList.lookup c.variables var.guid with
            | some value => Except.ok value
            | none => Except.error (VmError.LocalVariableDoesNotExists reference)
          | none => Except.error (VmError.LocalVariableDoesNotExists reference)
        | none => Except.error (VmError.LocalVariableDoesNotExists reference)
      | VmContextOwner.Method type_guid method_guid =>
        match AList.lookup vm.type_methods type_guid with
        | some methods =>
          match AList.lookup methods method_guid with
          | some (trait_guid, is_impl) =>
            match vm.ast.types.find? (fun t => t.guid == type_guid) with
            | some type_ =>
              let guidOut : Except VmError Nat :=
                if is_impl then
                  match type_.traits_implementation.findSome?
                      (fun p => p.2.find? (fun m => m.name == name)) with
                  | some method =>
                    match method.variables.find? (fun v => v.name == name) with
                    | some var => Except.ok var.guid
                    | none => Except.error (VmError.LocalVariableDoesNotExists reference)
                  | none => Except.error (VmError.MethodDoesNotExists (AstRef.Named name))
                else
                  match vm.ast.traits.find? (fun t => t.guid == trait_guid) with
                  | some trait_ =>
                    match trait_.methods.find? (fun m => m.guid == method_guid) with
                    | some method =>
                      match method.variables.find? (fun v => v.name == name) with
                      | some var => Except.ok var.guid
                      | none => Except.error (VmError.LocalVariableDoesNotExists reference)
                    | none => Except.error (VmError.MethodDoesNotExists (AstRef.Named name))
                  | none => Except.error (VmError.TraitDoesNotExists (AstRef.Guid type_guid))
              match guidOut with
              | Except.ok guid =>
                match AList.lookup c.variables guid with
                | some value => Except.ok value
                | none => Except.error (VmError.LocalVariableDoesNotExists reference)
              | Except.error err => Except.error err
            | none => Except.error (VmError.TypeDoesNotExists (AstRef.Guid type_guid))
          | none => Except.error (VmError.LocalVariableDoesNotExists reference)
        | none => Except.error (VmError.LocalVariableDoesNotExists reference)
      | VmContextOwner.Function function_guid =>
        match vm.ast.functions.find? (fun f => f.guid == function_guid) with
        | some func =>
          match func.variables.find? (fun v => v.name == name) with
          | some var =>
            match AList.lookup c.variables var.guid with
            | some value => Except.ok value
            | none => Except.error (VmError.LocalVariableDoesNotExists reference)
          | none => Except.error (VmError.LocalVariableDoesNotExists reference)
        | none => Except.error (VmError.LocalVariableDoesNotExists reference)
  | [] => Except.error (VmError.LocalVariableDoesNotExists reference)

/-- Translation of `Vm::global_variable_value`: resolve a global variable
reference by guid or by declared name. -/
def Vm.global_variable_value (vm : Vm) (reference : AstRef) : Except VmError Nat :=
  match reference with
  | AstRef.None => Except.error (VmError.GlobalVariableDoesNotExists reference)
  | AstRef.Guid guid =>
    match AList.lookup vm.variables guid with
    | some value => Except.ok value
    | none => Except.error (VmError.GlobalVariableDoesNotExists reference)
  | AstRef.Named name =>
    match vm.ast.variables.find? (fun v => v.name == name) with
    | some var =>
      match AList.lookup vm.variables var.guid with
      | some value => Except.ok value
      | none => Except.error (VmError.GlobalVariableDoesNotExists reference)
    | none => Except.error (VmError.GlobalVariableDoesNotExists reference)

/-- Translation of `Vm::set_global_variable_value`: replace the stored
reference, returning the previous one. -/
def Vm.set_global_variable_value (vm : Vm) (reference : AstRef) (value : Nat) :
    Except VmError (Nat × Vm) :=
  match reference with
  | AstRef.None => Except.error (VmError.GlobalVariableDoesNotExists reference)
  | AstRef.Guid guid =>
    match AList.lookup vm.variables guid with
    | some old =>
      Except.ok (old, { vm with «variables» := AList.insert vm.variables guid value })
    | none => Except.error (VmError.GlobalVariableDoesNotExists reference)
  | AstRef.Named name =>
    match vm.ast.variables.find? (fun v => v.name == name) with
    | some var =>
      match AList.lookup vm.variables var.guid with
      | some old =>
        Except.ok (old, { vm with «variables» := AList.insert vm.variables var.guid value })
      | none => Except.error (VmError.GlobalVariableDoesNotExists reference)
    | none => Except.error (VmError.GlobalVariableDoesNotExists reference)

/-- Step status of one `step_event` call (`enum VmStepStatus`). -/
inductive VmStepStatus where
  | Continue : VmStepStatus
  | Halt : VmStepStatus
  | Stop : VmStepStatus
deriving Repr, DecidableEq

/-- Result of one `Vm::step_event` call.  Rust mutates `self` and the
event in place; here the mutated states are carried in every non-panic
outcome (on a typed error the mutations made before the early return are
kept, exactly as in Rust). -/
inductive StepOut where
  | ok (status : VmStepStatus) (vm : Vm) (event : VmEvent) : StepOut
  | error (err : VmError) (vm : Vm) (event : VmEvent) : StepOut
  | panicked (msg : String) : StepOut

/-- Collect the already-cached outputs feeding the input links of a call
node, failing on the first missing one (the `collect::<Result<..>>` in
the three call arms). -/
def collectNodeInputs (e : VmEvent) : List Link → Except VmError (List Nat)
  | [] => Except.ok []
  | l :: rest =>
    match e.get_node_output l with
    | Except.ok v =>
      match collectNodeInputs e rest with
      | Except.ok vs => Except.ok (v :: vs)
      | Except.error err => Except.error err
    | Except.error err => Except.error err

/-- Does an operation match an `ast::Reference`? -/
def opMatchesRef (r : AstRef) (op : OperationDef) : Bool :=
  match r with
  | AstRef.None => false
  | AstRef.Guid g => op.guid == g
  | AstRef.Named n => op.name == n

/-- Does a function match an `ast::Reference`? -/
def funcMatchesRef (r : AstRef) (f : FunctionDef) : Bool :=
  match r with
  | AstRef.None => false
  | AstRef.Guid g => f.guid == g
  | AstRef.Named n => f.name == n

/-- Does a type match an `ast::Reference`? -/
def typeMatchesRef (r : AstRef) (t : TypeDef) : Bool :=
  match r with
  | AstRef.None => false
  | AstRef.Guid g => t.guid == g
  | AstRef.Named n => t.name == n

/-- Does a trait match an `ast::Reference`? -/
def traitMatchesRef (r : AstRef) (t : TraitDef) : Bool :=
  match r with
  | AstRef.None => false
  | AstRef.Guid g => t.guid == g
  | AstRef.Named n => t.name == n

/-- Does a method match an `ast::Reference`? -/
def methodMatchesRef (r : AstRef) (m : MethodDef) : Bool :=
  match r with
  | AstRef.None => false
  | AstRef.Guid g => m.guid == g
  | AstRef.Named n => m.name == n

/-- Method resolution of the `CallMethod` arm: per trait implementation,
prefer the override supplied by the type, else fall back to the method
declared by the resolved trait. -/
def findMethodForCall (vm : Vm) (type_ : TypeDef) (method_ref : AstRef) : Option MethodDef :=
  type_.traits_implementation.findSome? (fun p =>
    match p.2.find? (methodMatchesRef method_ref) with
    | some m => some m
    | none =>
      match vm.ast.traits.find? (traitMatchesRef p.1) with
      | some trait_ => trait_.methods.find? (methodMatchesRef method_ref)
      | none => none)

/-- The common tail of `step_event` (vm.rs lines 858-882): if the node
just executed is a terminal node, pop one jump marker (a `Loop` marker
redirects to the loop node itself, an `IfElse` marker to the node after
the if-else, the sentinel does nothing); then advance the instruction
pointer unconditionally. -/
def stepFinish (vm : Vm) (event : VmEvent) (node : Node) : StepOut :=
  if vm.end_nodes.contains node.guid then
    match event.pop_jump_from_stack with
    | Except.error e => StepOut.error e vm event
    | Except.ok (jump, event2) =>
      match jump with
      | VmJump.Loop guid =>
        match event2.get_node (AstRef.Guid guid) vm with
        | Except.error e => StepOut.error e vm event2
        | Except.ok node2 =>
          match node2.node_type with
          | NodeType.Loop _ =>
            match event2.go_to_node (AstRef.Guid guid) vm with
            | Except.ok event3 => StepOut.ok VmStepStatus.Continue vm event3.go_to_next_node
            | Except.error e => StepOut.error e vm event2
          | _ => StepOut.error (VmError.NodeIsNotALoop (AstRef.Guid guid)) vm event2
      | VmJump.IfElse guid =>
        match event2.get_node (AstRef.Guid guid) vm with
        | Except.error e => StepOut.error e vm event2
        | Except.ok node2 =>
          match node2.node_type with
          | NodeType.IfElse _ =>
            match event2.go_to_node node2.next_node vm with
            | Except.ok event3 => StepOut.ok VmStepStatus.Continue vm event3.go_to_next_node
            | Except.error e => StepOut.error e vm event2
          | _ => StepOut.error (VmError.NodeIsNotAnIfElse (AstRef.Guid guid)) vm event2
      | VmJump.None _ => StepOut.ok VmStepStatus.Continue vm event2.go_to_next_node
  else StepOut.ok VmStepStatus.Continue vm event.go_to_next_node

/-- The jump idiom shared by the control-flow arms of `step_event`:
`event.go_to_node(..)?` followed by the fall-through to the common tail —
a successful jump continues into `stepFinish`, a failed one propagates
the typed error with the event as it was before the jump. -/
def stepGoto (vm : Vm) (node : Node) (onError : VmEvent) (x : Except VmError VmEvent) : StepOut :=
  match x with
  | Except.ok event3 => stepFinish vm event3 node
  | Except.error e => StepOut.error e vm onError

/-- Translation of `Vm::step_event` (vm.rs lines 547-886): execute the
effect of the current node of the innermost context, then run the common
tail.  Rust `node.input_links[0]` indexing panics on an empty link list;
`RefCell` borrow dynamics in the `MutateValue` arm are modelled under the
single-threaded stepping discipline (no borrow is live when the arm
starts), under which `try_borrow_mut` on the destination succeeds and the
subsequent `RefCell` clone of the source panics exactly when source and
destination are the same cell. -/
def Vm.step_event (vm : Vm) (event : VmEvent) : StepOut :=
  match event.get_current_node vm with
  | none => StepOut.ok VmStepStatus.Stop vm event
  | some node =>
    match node.node_type with
    | NodeType.Halt => StepOut.ok VmStepStatus.Halt vm event.go_to_next_node
    | NodeType.Loop loop_ =>
      let event2 := event.push_jump_on_stack (VmJump.Loop node.guid)
      stepGoto vm node event2 (event2.go_to_node loop_ vm)
    | NodeType.IfElse if_else =>
      match node.input_links.get? 0 with
      | none => StepOut.panicked "index out of bounds"
      | some l0 =>
        match event.get_node_output l0 with
        | Except.error e => StepOut.error e vm event
        | Except.ok value =>
          match Heap.read vm.heap value with
          | some (Value.Bool v) =>
            let event2 := event.push_jump_on_stack (VmJump.IfElse node.guid)
            stepGoto vm node event2
              (event2.go_to_node (if v then if_else.next_node_true else if_else.next_node_false) vm)
          | some _ => StepOut.error (VmError.ValueIsNotABool value) vm event
          | none => StepOut.panicked "dangling reference"
    | NodeType.Break =>
      match event.pop_jump_from_stack with
      | Except.error e => StepOut.error e vm event
      | Except.ok (jump, event2) =>
        match jump with
        | VmJump.Loop guid =>
          match event2.get_node (AstRef.Guid guid) vm with
          | Except.error e => StepOut.error e vm event2
          | Except.ok node2 =>
            match node2.node_type with
            | NodeType.Loop _ => stepGoto vm node event2 (event2.go_to_node node2.next_node vm)
            | _ => StepOut.error (VmError.NodeIsNotALoop (AstRef.Guid guid)) vm event2
        | VmJump.IfElse _ => StepOut.error VmError.TryingToBreakIfElse vm event2
        | VmJump.None _ => stepFinish vm event2 node
    | NodeType.Continue =>
      match event.pop_jump_from_stack with
      | Except.error e => StepOut.error e vm event
      | Except.ok (jump, event2) =>
        match jump with
        | VmJump.Loop guid =>
          match event2.get_node (AstRef.Guid guid) vm with
          | Except.error e => StepOut.error e vm event2
          | Except.ok node2 =>
            match node2.node_type with
            | NodeType.Loop loop_ => stepGoto vm node event2 (event2.go_to_node loop_ vm)
            | _ => StepOut.error (VmError.NodeIsNotALoop (AstRef.Guid guid)) vm event2
        | VmJump.IfElse _ => StepOut.error VmError.TryingToContinueIfElse vm event2
        | VmJump.None _ => stepFinish vm event2 node
    | NodeType.GetInstance =>
      match event.instance_value with
      | Except.ok value => stepFinish vm (event.set_node_output node.guid value) node
      | Except.error e => StepOut.error e vm event
    | NodeType.GetGlobalVariable reference =>
      match vm.global_variable_value reference with
      | Except.ok value => stepFinish vm (event.set_node_output node.guid value) node
      | Except.error e => StepOut.error e vm event
    | NodeType.GetLocalVariable reference =>
      match event.local_variable_value reference vm with
      | Except.ok value => stepFinish vm (event.set_node_output node.guid value) node
      | Except.error e => StepOut.error e vm event
    | NodeType.GetInput index =>
      match event.input_value index with
      | Except.ok value => stepFinish vm (event.set_node_output node.guid value) node
      | Except.error e => StepOut.error e vm event
    | NodeType.SetOutput index =>
      match node.input_links.get? 0 with
      | none => StepOut.panicked "index out of bounds"
      | some l0 =>
        match event.get_node_output l0 with
        | Except.ok value =>
          match event.set_output_value index value with
          | Except.ok event2 => stepFinish vm event2 node
          | Except.error e => StepOut.error e vm event
        | Except.error e => StepOut.error e vm event
    | NodeType.GetValue v =>
      match Value.fromPrefab v.data vm.heap with
      | COut.ok (value, heap2) =>
        let (r, heap3) := Heap.alloc heap2 value
        stepFinish { vm with heap := heap3 } (event.set_node_output node.guid r) node
      | COut.panicked m => StepOut.panicked m
    | NodeType.GetListItem index =>
      match node.input_links.get? 0 with
      | none => StepOut.panicked "index out of bounds"
      | some l0 =>
        match event.get_node_output l0 with
        | Except.error e => StepOut.error e vm event
        | Except.ok value =>
          match Heap.read vm.heap value with
          | some (Value.List list) =>
            match list.get? index with
            | some item => stepFinish vm (event.set_node_output node.guid item) node
            | none => StepOut.error (VmError.IndexOutOfBounds list.length index value) vm event
          | some _ => StepOut.error (VmError.ValueIsNotAList value) vm event
          | none => StepOut.panicked "dangling reference"
    | NodeType.GetObjectItem key =>
      match node.input_links.get? 0 with
      | none => StepOut.panicked "index out of bounds"
      | some l0 =>
        match event.get_node_output l0 with
        | Except.error e => StepOut.error e vm event
        | Except.ok value =>
          match Heap.read vm.heap value with
          | some (Value.Object object) =>
            match object.find? (fun p => p.1 == key) with
            | some p => stepFinish vm (event.set_node_output node.guid p.2) node
            | none => StepOut.error (VmError.ObjectKeyDoesNotExists key value) vm event
          | some _ => StepOut.error (VmError.ValueIsNotAnObject value) vm event
          | none => StepOut.panicked "dangling reference"
    | NodeType.MutateValue =>
      match node.input_links.get? 0 with
      | none => StepOut.panicked "index out of bounds"
      | some l0 =>
        match event.get_node_output l0 with
        | Except.error e => StepOut.error e vm event
        | Except.ok value_dst =>
          match event.get_node_output l0 with
          | Except.error e => StepOut.error e vm event
          | Except.ok value_src =>
            if value_src == value_dst then
              StepOut.panicked "already mutably borrowed"
            else
              match Heap.read vm.heap value_src with
              | some v =>
                stepFinish { vm with heap := Heap.write vm.heap value_dst v } event node
              | none => StepOut.panicked "dangling reference"
    | NodeType.CallOperation reference =>
      match vm.ast.operations.find? (opMatchesRef reference) with
      | some op =>
        match vm.operations.find? (fun p => p.1 == op.name) with
        | some op_impl =>
          match collectNodeInputs event node.input_links with
          | Except.error e => StepOut.error e vm event
          | Except.ok inputs =>
            if op.input_constrains.length != inputs.length then
              StepOut.error (VmError.WrongNumberOfInputs op.input_constrains.length inputs.length) vm event
            else
              match op_impl.2 inputs vm.heap with
              | Except.error _ =>
                StepOut.error
                  (VmError.Message ("Error during call to " ++ op.name ++ " operation")) vm event
              | Except.ok (outputs, heap2) =>
                if op.output_constrains.length != outputs.length then
                  StepOut.error
                    (VmError.WrongNumberOfOutputs op.output_constrains.length outputs.length)
                    { vm with heap := heap2 } event
                else
                  stepFinish { vm with heap := heap2 }
                    (event.set_node_outputs node.guid outputs) node
        | none => StepOut.error (VmError.OperationIsNotRegistered op.name) vm event
      | none => StepOut.error (VmError.OperationDoesNotExists reference) vm event
    | NodeType.CallFunction reference =>
      match vm.ast.functions.find? (funcMatchesRef reference) with
      | some func =>
        match AList.lookup vm.function_execution_order func.guid with
        | some execution =>
          match collectNodeInputs event node.input_links with
          | Except.error e => StepOut.error e vm event
          | Except.ok inputs =>
            if func.input_constrains.length != inputs.length then
              StepOut.error
                (VmError.WrongNumberOfInputs func.input_constrains.length inputs.length) vm event
            else
              let (r, heap2) := Heap.alloc vm.heap Value.None
              let (vars, heap3) := allocVariables func.variables heap2 []
              let context : VmContext :=
                { owner := VmContextOwner.Function func.guid
                  caller_node := some node.guid
                  execution := execution
                  current := some 0
                  «instance» := none
                  inputs := inputs
                  outputs := List.replicate func.output_constrains.length r
                  «variables» := vars
                  jump_stack := [VmJump.None none]
                  node_outputs := [] }
              stepFinish { vm with heap := heap3 }
                { event with contexts := context :: event.contexts } node
        | none => StepOut.error (VmError.CouldNotCallFunction reference) vm event
      | none => StepOut.error (VmError.FunctionDoesNotExists reference) vm event
    | NodeType.CallMethod type_ref method_ref =>
      match vm.ast.types.find? (typeMatchesRef type_ref) with
      | some type_ =>
        match findMethodForCall vm type_ method_ref with
        | some method =>
          match vm.method_execution_order.find? (fun p => p.1.2 == method.guid) with
          | some entry =>
            match collectNodeInputs event node.input_links with
            | Except.error e => StepOut.error e vm event
            | Except.ok inputs =>
              if method.input_constrains.length != inputs.length then
                StepOut.error
                  (VmError.WrongNumberOfInputs method.input_constrains.length inputs.length)
                  vm event
              else
                match node.input_links.get? 0 with
                | none => StepOut.panicked "index out of bounds"
                | some l0 =>
                  match event.get_node_output l0 with
                  | Except.error e => StepOut.error e vm event
                  | Except.ok inst =>
                    let (r, heap2) := Heap.alloc vm.heap Value.None
                    let (vars, heap3) := allocVariables method.variables heap2 []
                    let context : VmContext :=
                      { owner := VmContextOwner.Method type_.guid method.guid
                        caller_node := some node.guid
                        execution := entry.2
                        current := some 0
                        «instance» := some inst
                        inputs := inputs
                        outputs := List.replicate method.output_constrains.length r
                        «variables» := vars
                        jump_stack := [VmJump.None none]
                        node_outputs := [] }
                    stepFinish { vm with heap := heap3 }
                      { event with contexts := context :: event.contexts } node
          | none => StepOut.error (VmError.CouldNotCallMethod type_ref method_ref) vm event
        | none => StepOut.error (VmError.MethodDoesNotExists method_ref) vm event
      | none => StepOut.error (VmError.TypeDoesNotExists type_ref) vm event
    | NodeType.OtherNodeType =>
      StepOut.error (VmError.TryingToPerformInvalidNodeType node.node_type) vm event

/-- Result of one public engine call: value, typed error, or panic, each
non-panic outcome carrying the (possibly mutated) engine state. -/
inductive CallOut (α : Type) where
  | ok (a : α) (vm : Vm) : CallOut α
  | error (e : VmError) (vm : Vm) : CallOut α
  | panicked (msg : String) : CallOut α

/-- Allocate one fresh `Value::None` cell per listed guid
(`\|v\| (v.guid, Value::None.into())` collected into a map). -/
def allocGuidRefs : List Nat → Heap → List (Nat × Nat) → List (Nat × Nat) × Heap
  | [], h, acc => (acc, h)
  | g :: rest, h, acc =>
    let (r, h2) := Heap.alloc h Value.None
    allocGuidRefs rest h2 (AList.insert acc g r)

/-- Translation of `VmEvent::new`: a single root context at instruction 0
with the given inputs, output slots that are `outputs` aliases of ONE
fresh `Value::None` cell (Rust `vec![Value::None.into(); outputs]` clones
the same `Rc`), fresh `Value::None` cells for the event variables, and a
jump stack holding one sentinel. -/
def VmEvent.new (owner_event : Nat) (execution : List Nat) (vars : List Nat)
    (inputs : List Nat) (outputs : Nat) (h : Heap) : VmEvent × Heap :=
  let (r, h2) := Heap.alloc h Value.None
  let (varRefs, h3) := allocGuidRefs vars h2 []
  ({ contexts :=
      [{ owner := VmContextOwner.Event owner_event
         caller_node := none
         execution := execution
         current := some 0
         «instance» := none
         inputs := inputs
         outputs := List.replicate outputs r
         «variables» := varRefs
         jump_stack := [VmJump.None none]
         node_outputs := [] }]
     outputs := [] }, h3)

/-- Translation of `Vm::register_operation`. -/
def Vm.register_operation (vm : Vm) (name : String) (op : VmOperationImpl) : Vm :=
  { vm with operations := (vm.operations.filter (fun p => p.1 != name)) ++ [(name, op)] }

/-- Translation of `Vm::unregister_operator`. -/
def Vm.unregister_operator (vm : Vm) (name : String) : Bool × Vm :=
  (vm.operations.any (fun p => p.1 == name),
   { vm with operations := vm.operations.filter (fun p => p.1 != name) })

/-- Translation of `Vm::run_event` (vm.rs lines 455-494): resolve the
event by name, validate input arity (failing BEFORE any state change),
mint a fresh handle; an event without an entry node completes
synchronously with empty outputs, otherwise a fresh `VmEvent` is queued
as running. -/
def Vm.run_event (vm : Vm) (name : String) (inputs : List Nat) : CallOut Nat :=
  match vm.ast.events.find? (fun e => e.name == name) with
  | some e =>
    if e.input_constrains.length != inputs.length then
      CallOut.error (VmError.WrongNumberOfInputs e.input_constrains.length inputs.length) vm
    else
      let guid := vm.guid_source
      let vm2 := { vm with guid_source := vm.guid_source + 1 }
      match e.entry_node with
      | AstRef.None =>
        CallOut.ok guid
          { vm2 with completed_events := AList.insert vm2.completed_events guid [] }
      | _ =>
        match AList.lookup vm2.event_execution_order e.guid with
        | some execution =>
          let vars := e.variables.map (fun v => v.guid)
          let (event, heap2) :=
            VmEvent.new e.guid execution vars inputs e.output_constrains.length vm2.heap
          CallOut.ok guid
            { vm2 with
                running_events := AList.insert vm2.running_events guid event
                heap := heap2 }
        | none => CallOut.error (VmError.CouldNotRunEvent name) vm2
  | none => CallOut.error (VmError.CouldNotRunEvent name) vm

/-- Translation of `Vm::destroy_event`: discard a running event and record
it as completed with empty outputs. -/
def Vm.destroy_event (vm : Vm) (guid : Nat) : CallOut Unit :=
  match AList.lookup vm.running_events guid with
  | some _ =>
    CallOut.ok ()
      { vm with
          running_events := AList.eraseKey vm.running_events guid
          completed_events := AList.insert vm.completed_events guid [] }
  | none => CallOut.error (VmError.EventDoesNotExists (AstRef.Guid guid)) vm

/-- Translation of `Vm::get_completed_events`: drain the completed map,
returning its contents exactly once. -/
def Vm.get_completed_events (vm : Vm) : List (Nat × List Nat) × Vm :=
  (vm.completed_events, { vm with completed_events := [] })

/-- Translation of `Vm::single_step_event`: take the event out of the
running set, step it once, and put it back; a step error propagates
WITHOUT reinserting the event (the reinsertion after the `?` never
runs). -/
def Vm.single_step_event (vm : Vm) (guid : Nat) : CallOut Unit :=
  match AList.lookup vm.running_events guid with
  | some event =>
    let vm2 := { vm with running_events := AList.eraseKey vm.running_events guid }
    match Vm.step_event vm2 event with
    | StepOut.ok _ vm3 event2 =>
      CallOut.ok () { vm3 with running_events := AList.insert vm3.running_events guid event2 }
    | StepOut.error e vm3 _ => CallOut.error e vm3
    | StepOut.panicked m => CallOut.panicked m
  | none => CallOut.error (VmError.EventDoesNotExists (AstRef.Guid guid)) vm

/-- Result of `Vm::process_event` on one event (the Rust
`Result<bool, VmError>` plus the mutated states); `outOfFuel` only marks
that the model ran out of fuel for the internal stepping loop. -/
inductive ProcOut where
  | ok (running : Bool) (vm : Vm) (event : VmEvent) : ProcOut
  | error (e : VmError) (vm : Vm) (event : VmEvent) : ProcOut
  | panicked (msg : String) : ProcOut
  | outOfFuel : ProcOut

/-- Translation of `Vm::process_event`: step the event until it halts
(still running), stops (completed), or a step fails. -/
def Vm.process_event : Nat → Vm → VmEvent → ProcOut
  | 0, _, _ => ProcOut.outOfFuel
  | fuel + 1, vm, event =>
    match Vm.step_event vm event with
    | StepOut.ok VmStepStatus.Continue vm2 e2 => Vm.process_event fuel vm2 e2
    | StepOut.ok VmStepStatus.Halt vm2 e2 => ProcOut.ok true vm2 e2
    | StepOut.ok VmStepStatus.Stop vm2 e2 => ProcOut.ok false vm2 e2
    | StepOut.error e vm2 e2 => ProcOut.error e vm2 e2
    | StepOut.panicked m => ProcOut.panicked m

/-- Result of a whole `Vm::process_events` batch. -/
inductive BatchOut where
  | ok (vm : Vm) : BatchOut
  | error (e : VmError) (vm : Vm) : BatchOut
  | panicked (msg : String) : BatchOut
  | outOfFuel : BatchOut

/-- The drained-events loop of `Vm::process_events`: once an error is
latched, every remaining event is reinserted untouched; before that, each
event is processed and either reinserted as running, moved to completed
with its outputs, or — when its processing fails — the error is latched
and the event itself is reinserted NOWHERE. -/
def Vm.process_events_aux (fuel : Nat) : List (Nat × VmEvent) → Vm → Option VmError → BatchOut
  | [], vm, none => BatchOut.ok vm
  | [], vm, some e => BatchOut.error e vm
  | (k, ev) :: rest, vm, some e =>
    Vm.process_events_aux fuel rest
      { vm with running_events := AList.insert vm.running_events k ev } (some e)
  | (k, ev) :: rest, vm, none =>
    match Vm.process_event fuel vm ev with
    | ProcOut.ok true vm2 ev2 =>
      Vm.process_events_aux fuel rest
        { vm2 with running_events := AList.insert vm2.running_events k ev2 } none
    | ProcOut.ok false vm2 ev2 =>
      Vm.process_events_aux fuel rest
        { vm2 with completed_events := AList.insert vm2.completed_events k ev2.outputs } none
    | ProcOut.error e vm2 _ => Vm.process_events_aux fuel rest vm2 (some e)
    | ProcOut.panicked m => BatchOut.panicked m
    | ProcOut.outOfFuel => BatchOut.outOfFuel

/-- Translation of `Vm::process_events` (vm.rs lines 510-535): drain the
running map (`mem::replace`), run the loop above over the drained events,
and return the first latched error if any. -/
def Vm.process_events (fuel : Nat) (vm : Vm) : BatchOut :=
  Vm.process_events_aux fuel vm.running_events { vm with running_events := [] } none

/-- The typed error of a call outcome, if any. -/
def CallOut.errOf {α : Type} : CallOut α → Option VmError
  | CallOut.ok _ _ => none
  | CallOut.error e _ => some e
  | CallOut.panicked _ => none

/-- The engine state carried by a non-panic call outcome. -/
def CallOut.vmOf {α : Type} : CallOut α → Option Vm
  | CallOut.ok _ vm => some vm
  | CallOut.error _ vm => some vm
  | CallOut.panicked _ => none

/-- The engine state carried by a non-panic step outcome. -/
def StepOut.vmOf : StepOut → Option Vm
  | StepOut.ok _ vm _ => some vm
  | StepOut.error _ vm _ => some vm
  | StepOut.panicked _ => none

/-- The engine state carried by a non-panic single-event outcome. -/
def ProcOut.vmOf : ProcOut → Option Vm
  | ProcOut.ok _ vm _ => some vm
  | ProcOut.error _ vm _ => some vm
  | ProcOut.panicked _ => none
  | ProcOut.outOfFuel => none

/-- The typed error of a batch outcome, if any. -/
def BatchOut.errOf : BatchOut → Option VmError
  | BatchOut.error e _ => some e
  | _ => none

/-- The engine state carried by a non-panic batch outcome. -/
def BatchOut.vmOf : BatchOut → Option Vm
  | BatchOut.ok vm => some vm
  | BatchOut.error _ vm => some vm
  | _ => none

/-- Reinsert a drained list of events into a running map, first to last
(the reinsertion loop `process_events` runs once an error is latched). -/
def reinsertAll (m : List (Nat × VmEvent)) (L : List (Nat × VmEvent)) : List (Nat × VmEvent) :=
  L.foldl (fun acc p => AList.insert acc p.1 p.2) m

theorem filter_find?_ne {κ β : Type} [BEq κ] [LawfulBEq κ] (l : List (κ × β)) (k k2 : κ)
    (h : k2 ≠ k) :
    (l.filter (fun p => p.1 != k)).find? (fun p => p.1 == k2) =
      l.find? (fun p => p.1 == k2) := by
  induction l with
  | nil => rfl
  | cons p rest ih =>
    rw [List.filter_cons]
    by_cases hq : p.1 = k
    · have hb : ((p.1 == k2) = false) := by
        rw [hq]
        exact beq_eq_false_iff_ne.mpr (Ne.symm h)
      have hne : ((p.1 != k) = false) := by simp [hq]
      rw [hne]
      simp only [Bool.false_eq_true, if_false]
      rw [ih, List.find?_cons_of_neg _ (by simp [hb])]
    · have hne : ((p.1 != k) = true) := by simp [hq]
      rw [hne]
      simp only [if_true]
      by_cases hp : p.1 = k2
      · rw [List.find?_cons_of_pos _ (by simp [hp]), List.find?_cons_of_pos _ (by simp [hp])]
      · rw [List.find?_cons_of_neg _ (by simp [hp]), List.find?_cons_of_neg _ (by simp [hp]), ih]

theorem AList.lookup_insert_self {κ β : Type} [BEq κ] [LawfulBEq κ]
    (l : List (κ × β)) (k : κ) (v : β) :
    AList.lookup (AList.insert l k v) k = some v := by
  unfold AList.lookup AList.insert AList.eraseKey
  rw [List.find?_append]
  have h1 : (l.filter (fun p => p.1 != k)).find? (fun p => p.1 == k) = none := by
    rw [List.find?_eq_none]
    intro x hx
    have := List.of_mem_filter hx
    simp only [bne_iff_ne, ne_eq] at this
    simp [this]
  rw [h1]
  simp

theorem AList.lookup_insert_ne {κ β : Type} [BEq κ] [LawfulBEq κ]
    (l : List (κ × β)) (k k2 : κ) (v : β) (h : k2 ≠ k) :
    AList.lookup (AList.insert l k v) k2 = AList.lookup l k2 := by
  unfold AList.lookup AList.insert AList.eraseKey
  rw [List.find?_append]
  have h2 : List.find? (fun p => p.1 == k2) [(k, v)] = none := by
    rw [List.find?_eq_none]
    intro x hx
    simp only [List.mem_singleton] at hx
    subst hx
    simp only [beq_iff_eq]
    exact Ne.symm h
  rw [h2, filter_find?_ne _ _ _ h]
  cases l.find? (fun p => p.1 == k2) <;> rfl

theorem AList.lookup_eraseKey_self {κ β : Type} [BEq κ] [LawfulBEq κ]
    (l : List (κ × β)) (k : κ) :
    AList.lookup (AList.eraseKey l k) k = none := by
  unfold AList.lookup AList.eraseKey
  have h1 : (l.filter (fun p => p.1 != k)).find? (fun p => p.1 == k) = none := by
    rw [List.find?_eq_none]
    intro x hx
    have := List.of_mem_filter hx
    simp only [bne_iff_ne, ne_eq] at this
    simp [this]
  rw [h1]

theorem lookup_reinsertAll_not_mem (m : List (Nat × VmEvent)) (L : List (Nat × VmEvent))
    (k : Nat) (h : k ∉ L.map Prod.fst) :
    AList.lookup (reinsertAll m L) k = AList.lookup m k := by
  induction L generalizing m with
  | nil => rfl
  | cons p rest ih =>
    simp only [List.map_cons, List.mem_cons] at h
    push_neg at h
    show AList.lookup (reinsertAll (AList.insert m p.1 p.2) rest) k = AList.lookup m k
    rw [ih _ h.2, AList.lookup_insert_ne _ _ _ _ h.1]

theorem lookup_reinsertAll_mem (m : List (Nat × VmEvent)) (L : List (Nat × VmEvent))
    (k : Nat) (v : VmEvent) (hnd : (L.map Prod.fst).Nodup) (hmem : (k, v) ∈ L) :
    AList.lookup (reinsertAll m L) k = some v := by
  induction L generalizing m with
  | nil => cases hmem
  | cons p rest ih =>
    simp only [List.map_cons, List.nodup_cons] at hnd
    cases hmem with
    | head =>
      show AList.lookup (reinsertAll (AList.insert m k v) rest) k = some v
      rw [lookup_reinsertAll_not_mem _ _ _ hnd.1, AList.lookup_insert_self]
    | tail _ hmem2 =>
      exact ih (AList.insert m p.1 p.2) hnd.2 hmem2

/-- Test fixture: an event whose second node is an `IfElse` fed a string
literal produced by a `GetValue` node. -/
def evIf : EventDef :=
  { guid := 1, name := "e", input_constrains := [], output_constrains := []
    «variables» := [], entry_node := AstRef.Guid 11
    nodes := [
      { guid := 11, name := "gv", node_type := NodeType.GetValue ⟨PrefabValue.string "x"⟩
        next_node := AstRef.Guid 12, input_links := [] },
      { guid := 12, name := "if"
        node_type := NodeType.IfElse ⟨AstRef.Guid 11, AstRef.Guid 11⟩
        next_node := AstRef.None, input_links := [Link.NodeIndexed 11 0] } ] }

/-- The `IfElse` node of `evIf`. -/
def ifNode : Node :=
  { guid := 12, name := "if"
    node_type := NodeType.IfElse ⟨AstRef.Guid 11, AstRef.Guid 11⟩
    next_node := AstRef.None, input_links := [Link.NodeIndexed 11 0] }

/-- Test fixture: the program holding only `evIf`. -/
def progIf : Program :=
  { events := [evIf], functions := [], types := [], traits := [], «variables» := []
    operations := [] }

/-- The activation of `evIf` as the public API produces it right after
the `GetValue` step: instruction pointer on the `IfElse` node, the string
cell (handle 1) cached as the output of node 11. -/
def ifStepEvent : VmEvent :=
  { contexts := [
      { owner := VmContextOwner.Event 1, caller_node := none
        execution := [11, 12], current := some 1, «instance» := none
        inputs := [], outputs := [], «variables» := []
        jump_stack := [VmJump.None none]
        node_outputs := [(11, [1])] }]
    outputs := [] }

/-- The engine state for `progIf` with `ifStepEvent` running under
handle 0: compiled order `[11, 12]`, terminal node 12, the root output
cell at handle 0 and the string literal at handle 1. -/
def ifStepVm : Vm :=
  { ast := progIf, operations := [], «variables» := []
    running_events := [(0, ifStepEvent)], completed_events := []
    event_execution_order := [(1, [11, 12])]
    method_execution_order := [], function_execution_order := []
    type_methods := [], end_nodes := [12]
    heap := [Value.None, Value.String "x"], guid_source := 1 }

/-- Test fixture: an event whose first node is a `Break` executed with
only the sentinel on the jump stack, followed by a `Halt`. -/
def evBrk : EventDef :=
  { guid := 2, name := "b", input_constrains := [], output_constrains := []
    «variables» := [], entry_node := AstRef.Guid 21
    nodes := [
      { guid := 21, name := "br", node_type := NodeType.Break
        next_node := AstRef.Guid 22, input_links := [] },
      { guid := 22, name := "h", node_type := NodeType.Halt
        next_node := AstRef.None, input_links := [] } ] }

/-- The `Break` node of `evBrk`. -/
def brkNode : Node :=
  { guid := 21, name := "br", node_type := NodeType.Break
    next_node := AstRef.Guid 22, input_links := [] }

/-- Test fixture: the program holding only `evBrk`. -/
def progBrk : Program :=
  { events := [evBrk], functions := [], types := [], traits := [], «variables» := []
    operations := [] }

/-- The freshly started activation of `evBrk`: instruction pointer on the
`Break` node, jump stack holding only the sentinel. -/
def brkStepEvent : VmEvent :=
  { contexts := [
      { owner := VmContextOwner.Event 2, caller_node := none
        execution := [21, 22], current := some 0, «instance» := none
        inputs := [], outputs := [], «variables» := []
        jump_stack := [VmJump.None none]
        node_outputs := [] }]
    outputs := [] }

/-- The engine state for `progBrk` with `brkStepEvent` running under
handle 0. -/
def brkStepVm : Vm :=
  { ast := progBrk, operations := [], «variables» := []
    running_events := [(0, brkStepEvent)], completed_events := []
    event_execution_order := [(2, [21, 22])]
    method_execution_order := [], function_execution_order := []
    type_methods := [], end_nodes := [22]
    heap := [Value.None], guid_source := 1 }

/-- Test fixture: an event with two `GetValue` nodes feeding a
`MutateValue` node (destination link first, source link second, the shape
the specification describes). -/
def evMut : EventDef :=
  { guid := 3, name := "m", input_constrains := [], output_constrains := []
    «variables» := [], entry_node := AstRef.Guid 31
    nodes := [
      { guid := 31, name := "a", node_type := NodeType.GetValue ⟨PrefabValue.number 1⟩
        next_node := AstRef.Guid 33, input_links := [] },
      { guid := 32, name := "b", node_type := NodeType.GetValue ⟨PrefabValue.number 2⟩
        next_node := AstRef.None, input_links := [] },
      { guid := 33, name := "mv", node_type := NodeType.MutateValue
        next_node := AstRef.None
        input_links := [Link.NodeIndexed 31 0, Link.NodeIndexed 32 0] } ] }

/-- The `MutateValue` node of `evMut`. -/
def mutNode : Node :=
  { guid := 33, name := "mv", node_type := NodeType.MutateValue
    next_node := AstRef.None
    input_links := [Link.NodeIndexed 31 0, Link.NodeIndexed 32 0] }

/-- Test fixture: the program holding only `evMut`. -/
def progMut : Program :=
  { events := [evMut], functions := [], types := [], traits := [], «variables» := []
    operations := [] }

/-- The activation of `evMut` right before the `MutateValue` step: both
literal cells produced (handles 1 and 2, distinct and unborrowed) and
cached as the outputs of nodes 31 and 32. -/
def mutStepEvent : VmEvent :=
  { contexts := [
      { owner := VmContextOwner.Event 3, caller_node := none
        execution := [31, 32, 33], current := some 2, «instance» := none
        inputs := [], outputs := [], «variables» := []
        jump_stack := [VmJump.None none]
        node_outputs := [(31, [1]), (32, [2])] }]
    outputs := [] }

/-- The engine state for `progMut` with `mutStepEvent` running under
handle 0. -/
def mutStepVm : Vm :=
  { ast := progMut, operations := [], «variables» := []
    running_events := [(0, mutStepEvent)], completed_events := []
    event_execution_order := [(3, [31, 32, 33])]
    method_execution_order := [], function_execution_order := []
    type_methods := [], end_nodes := [33]
    heap := [Value.None, Value.Number 1, Value.Number 2], guid_source := 1 }

/-- Test fixture: an event declaring one input and no entry node. -/
def evArity : EventDef :=
  { guid := 4, name := "r", input_constrains := [()], output_constrains := []
    «variables» := [], entry_node := AstRef.None, nodes := [] }

/-- Test fixture: the program holding only `evArity`. -/
def progArity : Program :=
  { events := [evArity], functions := [], types := [], traits := [], «variables» := []
    operations := [] }

/-- The compiled engine for `progArity` (compilation trivially succeeds:
no nodes, no graphs). -/
def vmArity : Vm :=
  { ast := progArity, operations := [], «variables» := []
    running_events := [], completed_events := []
    event_execution_order := [(4, [])]
    method_execution_order := [], function_execution_order := []
    type_methods := [], end_nodes := []
    heap := [], guid_source := 0 }

/-- Test fixture: a program declaring two global variables and nothing
else. -/
def progVars : Program :=
  { events := [], functions := [], types := [], traits := []
    «variables» := [⟨100, "health"⟩, ⟨101, "mana"⟩], operations := [] }

theorem stepFinish_vmOf (vm : Vm) (event : VmEvent) (node : Node) :
    (stepFinish vm event node).vmOf = some vm := by
  unfold stepFinish
  repeat' split
  all_goals rfl

theorem stepGoto_vmOf (vm : Vm) (node : Node) (onError : VmEvent)
    (x : Except VmError VmEvent) :
    (stepGoto vm node onError x).vmOf = some vm := by
  cases x with
  | error e => rfl
  | ok e3 => exact stepFinish_vmOf vm e3 node

/-- `step_event` never touches the running-events map or the
completed-events map: every mutation it makes to the engine is confined
to the heap (and the operation registry state it threads through). -/
theorem step_event_preserves (vm : Vm) (event : VmEvent) (vm2 : Vm)
    (h : (Vm.step_event vm event).vmOf = some vm2) :
    vm2.running_events = vm.running_events ∧ vm2.completed_events = vm.completed_events := by
  unfold Vm.step_event at h
  repeat'
    first
      | split at h
      | rw [stepFinish_vmOf] at h
      | rw [stepGoto_vmOf] at h
      | simp only [StepOut.vmOf] at h
  all_goals
    first
      | (cases h; exact ⟨rfl, rfl⟩)
      | cases h

/-- The stepping loop of `process_event` preserves the running and
completed maps as well. -/
theorem process_event_preserves (fuel : Nat) (vm : Vm) (event : VmEvent) (vm2 : Vm)
    (h : (Vm.process_event fuel vm event).vmOf = some vm2) :
    vm2.running_events = vm.running_events ∧ vm2.completed_events = vm.completed_events := by
  induction fuel generalizing vm event with
  | zero => cases h
  | succ fuel ih =>
    unfold Vm.process_event at h
    rcases h2 : Vm.step_event vm event with ⟨st, vm3, ev3⟩ | ⟨er, vm3, ev3⟩ | ⟨m⟩
    · have hpres := step_event_preserves vm event vm3 (by rw [h2]; rfl)
      rw [h2] at h
      cases st with
      | Continue =>
        have := ih vm3 ev3 h
        exact ⟨this.1.trans hpres.1, this.2.trans hpres.2⟩
      | Halt => simp only [ProcOut.vmOf] at h; cases h; exact hpres
      | Stop => simp only [ProcOut.vmOf] at h; cases h; exact hpres
    · have hpres := step_event_preserves vm event vm3 (by rw [h2]; rfl)
      rw [h2] at h
      simp only [ProcOut.vmOf] at h
      cases h
      exact hpres
    · rw [h2] at h
      cases h

/-- Once `process_events` has latched an error, the remaining drained
events are reinserted into the running map untouched and nothing else
changes; the latched error is returned. -/
theorem process_events_aux_latched (fuel : Nat) (L : List (Nat × VmEvent)) (vm : Vm)
    (e : VmError) :
    Vm.process_events_aux fuel L vm (some e) =
      BatchOut.error e { vm with running_events := reinsertAll vm.running_events L } := by
  induction L generalizing vm with
  | nil => rfl
  | cons p rest ih =>
    show Vm.process_events_aux fuel rest
        { vm with running_events := AList.insert vm.running_events p.1 p.2 } (some e) = _
    rw [ih]
    rfl

/-- C3.  The conversion from the external interchange tree hits the
`panic!` in `From<PrefabValue> for Value` on the first non-string mapping
key, aborting the process instead of returning the typed error the
specification requires (the code carries a TODO admitting this). -/
theorem mapping_key_not_string_panics :
    Value.fromPrefab (PrefabValue.mapping [(PrefabValue.bool true, PrefabValue.null)]) [] =
      COut.panicked "Mapping key is not a string" := rfl

/-- C2.  Whenever a `MutateValue` node executes far enough to reach the
mutation itself, the step panics: the destination and the source are both
read through `input_links[0]` (the source read repeats index 0 instead of
using index 1), so they are always the same cell, and cloning the source
`RefCell` while the destination is held by `try_borrow_mut` aborts the
process.  The overwrite of the destination with the second input that the
specification describes never happens. -/
theorem mutate_value_always_panics (vm : Vm) (event : VmEvent) (node : Node)
    (l0 : Link) (r : Nat)
    (h1 : event.get_current_node vm = some node)
    (h2 : node.node_type = NodeType.MutateValue)
    (h3 : node.input_links[0]? = some l0)
    (h4 : event.get_node_output l0 = Except.ok r) :
    Vm.step_event vm event = StepOut.panicked "already mutably borrowed" := by
  simp [Vm.step_event, h1, h2, h3, h4]

/-- C2 witness: on the two-literal fixture the `MutateValue` step panics
even though the destination cell (handle 1) and the intended source cell
(handle 2, holding `Number 2`) are distinct and unborrowed. -/
theorem mutate_value_always_panics_witness :
    Vm.step_event mutStepVm mutStepEvent = StepOut.panicked "already mutably borrowed" :=
  mutate_value_always_panics mutStepVm mutStepEvent mutNode (Link.NodeIndexed 31 0) 1
    rfl rfl rfl rfl

/-- C8.  `run_event` validates the input count against the declared input
arity of the event resolved by name before allocating anything: on
mismatch it returns the typed `WrongNumberOfInputs` error with the engine
state untouched — in particular the running map, the completed map and
the global variable store are exactly as before the call. -/
theorem run_event_arity_mismatch_unchanged (vm : Vm) (name : String)
    (inputs : List Nat) (e : EventDef)
    (h1 : vm.ast.events.find? (fun ev => ev.name == name) = some e)
    (h2 : e.input_constrains.length ≠ inputs.length) :
    Vm.run_event vm name inputs =
      CallOut.error (VmError.WrongNumberOfInputs e.input_constrains.length inputs.length) vm := by
  simp [Vm.run_event, h1, h2]

/-- C8 witness: the one-input event `"r"` called with no inputs fails
with `WrongNumberOfInputs 1 0` and returns the engine exactly as it
was. -/
theorem run_event_arity_mismatch_unchanged_witness :
    Vm.run_event vmArity "r" [] =
      CallOut.error (VmError.WrongNumberOfInputs 1 0) vmArity :=
  run_event_arity_mismatch_unchanged vmArity "r" [] evArity rfl (by decide)

/-- The `IfElse` arm of `step_event` on a non-boolean input: typed
`ValueIsNotABool` error, engine and event returned exactly as they were
(in particular no `IfElse` marker was pushed on the jump stack). -/
theorem step_ifelse_nonbool (vm : Vm) (event : VmEvent) (node : Node) (d : IfElseData)
    (l0 : Link) (r : Nat) (v : Value)
    (h1 : event.get_current_node vm = some node)
    (h2 : node.node_type = NodeType.IfElse d)
    (h3 : node.input_links[0]? = some l0)
    (h4 : event.get_node_output l0 = Except.ok r)
    (h5 : Heap.read vm.heap r = some v)
    (h6 : ∀ b, v ≠ Value.Bool b) :
    Vm.step_event vm event = StepOut.error (VmError.ValueIsNotABool r) vm event := by
  cases v with
  | Bool b => exact absurd rfl (h6 b)
  | _ => simp [Vm.step_event, h1, h2, h3, h4, h5]

/-- C5 (amended).  An `IfElse` node fed a non-boolean value fails the
step with the typed `ValueIsNotABool` error carrying the offending
reference, and no `IfElse` marker is pushed (the event inside the error
outcome is exactly the input event); but the owning event does NOT remain
in the running set: `single_step_event` removes it before stepping and,
on the error, never reinserts it, so afterwards the handle is in neither
the running nor the completed map. -/
theorem ifelse_nonbool_error_drops_event (vm : Vm) (guid : Nat) (event : VmEvent)
    (node : Node) (d : IfElseData) (l0 : Link) (r : Nat) (v : Value)
    (hrun : AList.lookup vm.running_events guid = some event)
    (h1 : event.get_current_node vm = some node)
    (h2 : node.node_type = NodeType.IfElse d)
    (h3 : node.input_links[0]? = some l0)
    (h4 : event.get_node_output l0 = Except.ok r)
    (h5 : Heap.read vm.heap r = some v)
    (h6 : ∀ b, v ≠ Value.Bool b) :
    Vm.step_event vm event = StepOut.error (VmError.ValueIsNotABool r) vm event ∧
    Vm.single_step_event vm guid =
      CallOut.error (VmError.ValueIsNotABool r)
        { vm with running_events := AList.eraseKey vm.running_events guid } ∧
    AList.lookup (AList.eraseKey vm.running_events guid) guid = none ∧
    ({ vm with running_events := AList.eraseKey vm.running_events guid }).completed_events =
      vm.completed_events := by
  have hstep2 : Vm.step_event
      { vm with running_events := AList.eraseKey vm.running_events guid } event =
      StepOut.error (VmError.ValueIsNotABool r)
        { vm with running_events := AList.eraseKey vm.running_events guid } event :=
    step_ifelse_nonbool _ event node d l0 r v h1 h2 h3 h4 h5 h6
  refine ⟨step_ifelse_nonbool vm event node d l0 r v h1 h2 h3 h4 h5 h6, ?_, ?_, rfl⟩
  · simp only [Vm.single_step_event, hrun]
    rw [hstep2]
  · exact AList.lookup_eraseKey_self vm.running_events guid

/-- C5 counterexample: on the concrete engine the `IfElse` step over the
cached string fails with `ValueIsNotABool`, and afterwards handle 0 —
running before the call — is in neither the running set nor the
completed set, contradicting that the event remains running. -/
theorem ifelse_nonbool_counterexample :
    AList.lookup ifStepVm.running_events 0 = some ifStepEvent ∧
    Vm.single_step_event ifStepVm 0 =
      CallOut.error (VmError.ValueIsNotABool 1) { ifStepVm with running_events := [] } ∧
    AList.lookup ({ ifStepVm with running_events := [] }).running_events 0 = none ∧
    AList.lookup ({ ifStepVm with running_events := [] }).completed_events 0 = none :=
  ⟨rfl, rfl, rfl, rfl⟩

/-- C5 witness: the amended theorem applied to the concrete fixture. -/
theorem ifelse_nonbool_error_drops_event_witness :
    Vm.step_event ifStepVm ifStepEvent =
      StepOut.error (VmError.ValueIsNotABool 1) ifStepVm ifStepEvent ∧
    Vm.single_step_event ifStepVm 0 =
      CallOut.error (VmError.ValueIsNotABool 1)
        { ifStepVm with running_events := AList.eraseKey ifStepVm.running_events 0 } ∧
    AList.lookup (AList.eraseKey ifStepVm.running_events 0) 0 = none ∧
    ({ ifStepVm with running_events := AList.eraseKey ifStepVm.running_events 0 }).completed_events =
      ifStepVm.completed_events :=
  ifelse_nonbool_error_drops_event ifStepVm 0 ifStepEvent ifNode
    ⟨AstRef.Guid 11, AstRef.Guid 11⟩ (Link.NodeIndexed 11 0) 1 (Value.String "x")
    rfl rfl rfl rfl rfl rfl (by decide)

/-- C4 (amended).  A `Break` node pops one marker from the jump stack of
the innermost context.  An `IfElse` marker fails the step with the typed
`TryingToBreakIfElse` error; an empty jump stack fails with
`StackUnderflow`; a `Loop` marker that resolves to a loop node jumps to
the node following that loop node (the go-to-node call of the arm,
followed by the common post-step advance inside `stepGoto`/`stepFinish`);
but the sentinel at the bottom of the stack is NOT an error: it is
silently discarded and the step falls through to the common tail. -/
theorem break_pops_marker (vm : Vm) (event : VmEvent) (node : Node)
    (h1 : event.get_current_node vm = some node)
    (h2 : node.node_type = NodeType.Break) :
    (∀ c event2, event.pop_jump_from_stack = Except.ok (VmJump.None c, event2) →
      Vm.step_event vm event = stepFinish vm event2 node) ∧
    (∀ g event2, event.pop_jump_from_stack = Except.ok (VmJump.IfElse g, event2) →
      Vm.step_event vm event = StepOut.error VmError.TryingToBreakIfElse vm event2) ∧
    (∀ g event2 node2 r, event.pop_jump_from_stack = Except.ok (VmJump.Loop g, event2) →
      event2.get_node (AstRef.Guid g) vm = Except.ok node2 →
      node2.node_type = NodeType.Loop r →
      Vm.step_event vm event =
        stepGoto vm node event2 (event2.go_to_node node2.next_node vm)) ∧
    (∀ e, event.pop_jump_from_stack = Except.error e →
      Vm.step_event vm event = StepOut.error e vm event) := by
  refine ⟨?_, ?_, ?_, ?_⟩
  · intro c event2 hpop
    simp [Vm.step_event, h1, h2, hpop]
  · intro g event2 hpop
    simp [Vm.step_event, h1, h2, hpop]
  · intro g event2 node2 r hpop hget hloop
    simp [Vm.step_event, h1, h2, hpop, hget, hloop]
  · intro e hpop
    simp [Vm.step_event, h1, h2, hpop]

/-- The `Break` fixture event after its sentinel has been popped. -/
def brkPoppedEvent : VmEvent :=
  { contexts := [
      { owner := VmContextOwner.Event 2, caller_node := none
        execution := [21, 22], current := some 0, «instance» := none
        inputs := [], outputs := [], «variables» := []
        jump_stack := []
        node_outputs := [] }]
    outputs := [] }

/-- C4 counterexample: executing a `Break` whose jump stack holds only
the sentinel does NOT fail with a typed error — the step succeeds (the
sentinel falls into the silent wildcard arm) and the event advances to
the next node, contradicting the claim that a non-`Loop` marker
(including the sentinel) always produces the typed
break-outside-a-loop error. -/
theorem break_sentinel_counterexample :
    brkStepEvent.get_current_node brkStepVm = some brkNode ∧
    brkNode.node_type = NodeType.Break ∧
    brkStepEvent.pop_jump_from_stack = Except.ok (VmJump.None none, brkPoppedEvent) ∧
    (Vm.single_step_event brkStepVm 0).errOf = none :=
  ⟨rfl, rfl, rfl, rfl⟩

/-- C4 witness: the amended theorem applied to the concrete fixture
(sentinel case). -/
theorem break_pops_marker_witness :
    Vm.step_event brkStepVm brkStepEvent = stepFinish brkStepVm brkPoppedEvent brkNode :=
  (break_pops_marker brkStepVm brkStepEvent brkNode rfl rfl).1 none brkPoppedEvent rfl

/-- C1 (amended).  A batch `process_events` call stops at the first step
error: the error is returned, every not-yet-processed running event is
reinserted untouched for the next call — but the event whose step erred
IS silently dropped: it is reinserted in neither the running map nor the
completed map. -/
theorem process_events_first_error (fuel : Nat) (vm : Vm) (k : Nat) (ev : VmEvent)
    (rest : List (Nat × VmEvent)) (err : VmError) (vm2 : Vm) (ev2 : VmEvent)
    (hrun : vm.running_events = (k, ev) :: rest)
    (hstep : Vm.process_event fuel { vm with running_events := [] } ev =
      ProcOut.error err vm2 ev2)
    (hnodup : (((k, ev) :: rest).map Prod.fst).Nodup)
    (hcomp : AList.lookup vm.completed_events k = none) :
    Vm.process_events fuel vm =
      BatchOut.error err { vm2 with running_events := reinsertAll vm2.running_events rest } ∧
    AList.lookup (reinsertAll vm2.running_events rest) k = none ∧
    AList.lookup vm2.completed_events k = none ∧
    (∀ p ∈ rest, AList.lookup (reinsertAll vm2.running_events rest) p.1 = some p.2) := by
  have hpres := process_event_preserves fuel { vm with running_events := [] } ev vm2
    (by rw [hstep]; rfl)
  have hrun2 : vm2.running_events = [] := hpres.1
  have hknotin : k ∉ rest.map Prod.fst := by
    simp only [List.map_cons, List.nodup_cons] at hnodup
    exact hnodup.1
  have hndrest : (rest.map Prod.fst).Nodup := by
    simp only [List.map_cons, List.nodup_cons] at hnodup
    exact hnodup.2
  refine ⟨?_, ?_, ?_, ?_⟩
  · have h0 : Vm.process_events fuel vm =
        Vm.process_events_aux fuel ((k, ev) :: rest) { vm with running_events := [] } none := by
      unfold Vm.process_events
      rw [hrun]
    rw [h0]
    show (match Vm.process_event fuel { vm with running_events := [] } ev with
      | ProcOut.ok true vmx evx =>
        Vm.process_events_aux fuel rest
          { vmx with running_events := AList.insert vmx.running_events k evx } none
      | ProcOut.ok false vmx evx =>
        Vm.process_events_aux fuel rest
          { vmx with completed_events := AList.insert vmx.completed_events k evx.outputs } none
      | ProcOut.error e vmx _ => Vm.process_events_aux fuel rest vmx (some e)
      | ProcOut.panicked m => BatchOut.panicked m
      | ProcOut.outOfFuel => BatchOut.outOfFuel) = _
    simp only [hstep]
    rw [process_events_aux_latched]
  · rw [hrun2]
    rw [lookup_reinsertAll_not_mem _ _ _ hknotin]
    rfl
  · rw [hpres.2]
    exact hcomp
  · intro p hp
    exact lookup_reinsertAll_mem _ _ _ _ hndrest hp

/-- C1 counterexample: on the concrete engine with one running event
whose first step errors, `process_events` returns the error and the
erred event (handle 0, running before the call) ends up in neither the
running map nor the completed map — it does not stay queued. -/
theorem process_events_drop_counterexample :
    AList.lookup ifStepVm.running_events 0 = some ifStepEvent ∧
    Vm.process_events 5 ifStepVm =
      BatchOut.error (VmError.ValueIsNotABool 1) { ifStepVm with running_events := [] } ∧
    AList.lookup ({ ifStepVm with running_events := [] }).running_events 0 = none ∧
    AList.lookup ({ ifStepVm with running_events := [] }).completed_events 0 = none :=
  ⟨rfl, rfl, rfl, rfl⟩

/-- C1 witness: the amended theorem applied to the concrete fixture. -/
theorem process_events_first_error_witness :
    Vm.process_events 5 ifStepVm =
      BatchOut.error (VmError.ValueIsNotABool 1)
        { { ifStepVm with running_events := [] } with
            running_events := reinsertAll ({ ifStepVm with running_events := [] }).running_events [] } ∧
    AList.lookup (reinsertAll ({ ifStepVm with running_events := [] }).running_events []) 0 = none ∧
    AList.lookup ({ ifStepVm with running_events := [] }).completed_events 0 = none ∧
    (∀ p ∈ ([] : List (Nat × VmEvent)),
      AList.lookup (reinsertAll ({ ifStepVm with running_events := [] }).running_events []) p.1 =
        some p.2) :=
  process_events_first_error 5 ifStepVm 0 ifStepEvent [] (VmError.ValueIsNotABool 1)
    { ifStepVm with running_events := [] } ifStepEvent rfl rfl (by decide) rfl

theorem Heap.read_append (h : Heap) (t : Heap) (r : Nat) (w : Value)
    (hr : Heap.read h r = some w) : Heap.read (h ++ t) r = some w := by
  unfold Heap.read at hr ⊢
  rw [List.get?_eq_getElem?] at hr ⊢
  rw [List.getElem?_append_left]
  · exact hr
  · exact (List.getElem?_eq_some_iff.mp hr).1

theorem Heap.read_alloc_self (h : Heap) (w : Value) :
    Heap.read (h ++ [w]) h.length = some w := by
  unfold Heap.read
  rw [List.get?_eq_getElem?]
  rw [List.getElem?_append_right (Nat.le_refl _)]
  simp

/-- Every binding the variable-store construction produces points at a
`Value::None` cell. -/
theorem allocVariables_reads (l : List Variable) (h : Heap) (acc : List (Nat × Nat))
    (hacc : ∀ k r, AList.lookup acc k = some r → Heap.read h r = some Value.None) :
    ∀ k r, AList.lookup (allocVariables l h acc).1 k = some r →
      Heap.read (allocVariables l h acc).2 r = some Value.None := by
  induction l generalizing h acc with
  | nil => exact hacc
  | cons v rest ih =>
    show ∀ k r, AList.lookup (allocVariables rest (h ++ [Value.None])
        (AList.insert acc v.guid h.length)).1 k = some r → _
    apply ih
    intro k r hk
    by_cases hkg : k = v.guid
    · subst hkg
      rw [AList.lookup_insert_self] at hk
      cases hk
      exact Heap.read_alloc_self h Value.None
    · rw [AList.lookup_insert_ne _ _ _ _ hkg] at hk
      exact Heap.read_append _ _ _ _ (hacc k r hk)

/-- Every declared variable ends up bound in the constructed variable
store. -/
theorem allocVariables_mem (l : List Variable) (h : Heap) (acc : List (Nat × Nat))
    (k : Nat) (hk : (∃ r, AList.lookup acc k = some r) ∨ (∃ v, v ∈ l ∧ v.guid = k)) :
    ∃ r, AList.lookup (allocVariables l h acc).1 k = some r := by
  induction l generalizing h acc with
  | nil =>
    rcases hk with ⟨r, hr⟩ | ⟨v, hv, _⟩
    · exact ⟨r, hr⟩
    · cases hv
  | cons v rest ih =>
    show ∃ r, AList.lookup (allocVariables rest (h ++ [Value.None])
        (AList.insert acc v.guid h.length)).1 k = some r
    apply ih
    by_cases hkg : k = v.guid
    · subst hkg
      exact Or.inl ⟨h.length, AList.lookup_insert_self _ _ _⟩
    · rcases hk with ⟨r, hr⟩ | ⟨v2, hv2, hg⟩
      · exact Or.inl ⟨r, by rw [AList.lookup_insert_ne _ _ _ _ hkg]; exact hr⟩
      · rcases List.mem_cons.mp hv2 with he | ht
        · exact absurd (he ▸ hg) (fun x => hkg x.symm)
        · exact Or.inr ⟨v2, ht, hg⟩

/-- Inversion of a successful `Vm::new`: the program is stored as-is and
the variable store and heap are exactly what the variable-allocation pass
produced. -/
theorem Vm.new_ok_fields (p : Program) (vm : Vm) (hnew : Vm.new p = VOut.ok vm) :
    vm.ast = p ∧ vm.variables = (allocVariables p.variables [] []).1 ∧
    vm.heap = (allocVariables p.variables [] []).2 := by
  unfold Vm.new at hnew
  repeat' split at hnew
  all_goals
    first
      | (cases hnew; rename_i heq; exact ⟨rfl, by rw [heq], by rw [heq]⟩)
      | cases hnew

/-- A throwaway engine state keeping concrete fixtures total (never
reached on the verified paths). -/
def dummyVm : Vm :=
  { ast :=
      { events := [], functions := [], types := [], traits := [], «variables» := []
        operations := [] }
    operations := [], «variables» := [], running_events := [], completed_events := []
    event_execution_order := [], method_execution_order := [], function_execution_order := []
    type_methods := [], end_nodes := [], heap := [], guid_source := 0 }

/-- The compiled engine for `progVars`. -/
def vmVars : Vm :=
  match Vm.new progVars with
  | VOut.ok vm => vm
  | _ => dummyVm

/-- C10.  Immediately after a successful `Vm::new`, every global variable
the program declares is bound to a freshly allocated cell holding
`Value::None`: querying it by id or by name succeeds and the returned
reference dereferences to `None`. -/
theorem vm_new_global_variables_none (p : Program) (vm : Vm) (v : Variable)
    (hnew : Vm.new p = VOut.ok vm) (hv : v ∈ p.variables) :
    (∃ r, vm.global_variable_value (AstRef.Guid v.guid) = Except.ok r ∧
      Heap.read vm.heap r = some Value.None) ∧
    (∃ r, vm.global_variable_value (AstRef.Named v.name) = Except.ok r ∧
      Heap.read vm.heap r = some Value.None) := by
  obtain ⟨hast, hvars, hheap⟩ := Vm.new_ok_fields p vm hnew
  have hreads := allocVariables_reads p.variables [] []
    (by intro k r hk; simp [AList.lookup, List.find?] at hk)
  constructor
  · obtain ⟨r, hr⟩ := allocVariables_mem p.variables [] [] v.guid (Or.inr ⟨v, hv, rfl⟩)
    refine ⟨r, ?_, ?_⟩
    · simp only [Vm.global_variable_value, hvars, hr]
    · rw [hheap]
      exact hreads v.guid r hr
  · have hsome : (p.variables.find? (fun x => x.name == v.name)).isSome :=
      List.find?_isSome.mpr ⟨v, hv, by simp⟩
    obtain ⟨v2, hv2⟩ := Option.isSome_iff_exists.mp hsome
    have hv2mem := List.mem_of_find?_eq_some hv2
    obtain ⟨r2, hr2⟩ := allocVariables_mem p.variables [] [] v2.guid (Or.inr ⟨v2, hv2mem, rfl⟩)
    refine ⟨r2, ?_, ?_⟩
    · simp only [Vm.global_variable_value, hast, hv2, hvars, hr2]
    · rw [hheap]
      exact hreads v2.guid r2 hr2

/-- C10 witness: on the two-variable fixture, variable 100 ("health") is
queryable by id and by name right after construction and holds `None`. -/
theorem vm_new_global_variables_none_witness :
    (∃ r, vmVars.global_variable_value (AstRef.Guid 100) = Except.ok r ∧
      Heap.read vmVars.heap r = some Value.None) ∧
    (∃ r, vmVars.global_variable_value (AstRef.Named "health") = Except.ok r ∧
      Heap.read vmVars.heap r = some Value.None) :=
  vm_new_global_variables_none progVars vmVars ⟨100, "health"⟩ rfl (by decide)

/-- Edge relation of a graph given as an edge list. -/
def edgeRel (edges : List (Nat × Nat)) (u v : Nat) : Prop := (u, v) ∈ edges

/-- A graph is acyclic when no node reaches itself through a nonempty
edge path. -/
def Acyclic (edges : List (Nat × Nat)) : Prop :=
  ¬ ∃ a, Relation.TransGen (edgeRel edges) a a

theorem kahnAux_sound (edges : List (Nat × Nat)) :
    ∀ (fuel : Nat) (rem acc l : List Nat), rem.length ≤ fuel →
      kahnAux edges fuel rem acc = some l →
      ∃ t, l = acc.reverse ++ t ∧ t.Perm rem ∧
        t.Pairwise (fun a b => (b, a) ∉ edges) ∧ (∀ x ∈ t, (x, x) ∉ edges) := by
  intro fuel
  induction fuel with
  | zero =>
    intro rem acc l hle h
    cases rem with
    | nil =>
      refine ⟨[], ?_, List.Perm.refl _, List.Pairwise.nil, by intro x hx; cases hx⟩
      cases h
      simp
    | cons x xs => simp at hle
  | succ fuel ih =>
    intro rem acc l hle h
    cases rem with
    | nil =>
      refine ⟨[], ?_, List.Perm.refl _, List.Pairwise.nil, by intro x hx; cases hx⟩
      cases h
      simp
    | cons x xs =>
      unfold kahnAux at h
      rcases hf : (x :: xs).find? (noIncoming edges (x :: xs)) with _ | y
      · rw [hf] at h
        cases h
      · rw [hf] at h
        have hy : y ∈ x :: xs := List.mem_of_find?_eq_some hf
        have hni : noIncoming edges (x :: xs) y = true := List.find?_some hf
        have hlen : ((x :: xs).erase y).length ≤ fuel := by
          rw [List.length_erase_of_mem hy]
          simp only [List.length_cons] at hle ⊢
          omega
        obtain ⟨t, hl, hperm, hpw, hself⟩ := ih ((x :: xs).erase y) (y :: acc) l hlen h
        have hniedge : ∀ z ∈ x :: xs, (z, y) ∉ edges := by
          intro z hz hc
          unfold noIncoming at hni
          rw [List.all_eq_true] at hni
          have h2 := hni z hz
          simp only [List.contains, Bool.not_eq_eq_eq_not, Bool.not_true, List.elem_eq_mem,
            decide_eq_false_iff_not] at h2
          exact h2 hc
        refine ⟨y :: t, ?_, ?_, ?_, ?_⟩
        · rw [hl]
          simp
        · exact ((hperm.cons y).trans (List.perm_cons_erase hy).symm)
        · refine List.Pairwise.cons ?_ hpw
          intro b hb
          have hbrem : b ∈ (x :: xs).erase y := hperm.mem_iff.mp hb
          exact hniedge b (List.mem_of_mem_erase hbrem)
        · intro z hz
          rcases List.mem_cons.mp hz with he | ht
          · subst he
            exact hniedge z hy
          · exact hself z ht

theorem cycle_of_all_incoming (edges : List (Nat × Nat)) (rem : List Nat) (hne : rem ≠ [])
    (h : ∀ z ∈ rem, ∃ y, y ∈ rem ∧ (y, z) ∈ edges) :
    ∃ a, Relation.TransGen (edgeRel edges) a a := by
  classical
  obtain ⟨x0, hx0⟩ := List.exists_mem_of_ne_nil rem hne
  let g : Nat → Nat := fun z => (rem.find? (fun y => edges.contains (y, z))).getD 0
  have hg : ∀ z ∈ rem, g z ∈ rem ∧ (g z, z) ∈ edges := by
    intro z hz
    obtain ⟨y, hy, hyz⟩ := h z hz
    have hsome : (rem.find? (fun y => edges.contains (y, z))).isSome :=
      List.find?_isSome.mpr ⟨y, hy, by simp [List.contains, List.elem_eq_mem, hyz]⟩
    obtain ⟨w, hw⟩ := Option.isSome_iff_exists.mp hsome
    have hwmem := List.mem_of_find?_eq_some hw
    have hwp := List.find?_some hw
    simp only [List.contains, List.elem_eq_mem, decide_eq_true_eq] at hwp
    constructor
    · show (rem.find? (fun y => edges.contains (y, z))).getD 0 ∈ rem
      rw [hw]
      exact hwmem
    · show ((rem.find? (fun y => edges.contains (y, z))).getD 0, z) ∈ edges
      rw [hw]
      exact hwp
  have hiter : ∀ k, g^[k] x0 ∈ rem := by
    intro k
    induction k with
    | zero => exact hx0
    | succ k ih =>
      rw [Function.iterate_succ_apply' ]
      exact (hg _ ih).1
  have hmaps : ∀ k ∈ Finset.range (rem.length + 1), g^[k] x0 ∈ rem.toFinset := by
    intro k _
    rw [List.mem_toFinset]
    exact hiter k
  have hcard : rem.toFinset.card < (Finset.range (rem.length + 1)).card := by
    rw [Finset.card_range]
    exact Nat.lt_succ_of_le rem.toFinset_card_le
  obtain ⟨i, hi, j, hj, hij, heq⟩ :=
    Finset.exists_ne_map_eq_of_card_lt_of_maps_to hcard hmaps
  have key : ∀ (m : Nat) (x : Nat), x ∈ rem →
      Relation.TransGen (edgeRel edges) (g^[m + 1] x) x := by
    intro m
    induction m with
    | zero =>
      intro x hx
      exact Relation.TransGen.single ((hg x hx).2)
    | succ m ih =>
      intro x hx
      have h1 := ih (g x) ((hg x hx).1)
      have h2 : Relation.TransGen (edgeRel edges) (g x) x :=
        Relation.TransGen.single ((hg x hx).2)
      rw [Function.iterate_succ_apply]
      exact Relation.TransGen.trans h1 h2
  have main : ∀ a b : Nat, a < b → g^[a] x0 = g^[b] x0 →
      ∃ c, Relation.TransGen (edgeRel edges) c c := by
    intro a b hab hab2
    have hb : b = (b - a - 1 + 1) + a := by omega
    have h4 : g^[b] x0 = g^[b - a - 1 + 1] (g^[a] x0) := by
      conv_lhs => rw [hb]
      rw [Function.iterate_add_apply]
    refine ⟨g^[a] x0, ?_⟩
    have h5 := key (b - a - 1) (g^[a] x0) (hiter a)
    rw [← h4, ← hab2] at h5
    exact h5
  rcases Nat.lt_trichotomy i j with hlt | heqq | hgt
  · exact main i j hlt heq
  · exact absurd heqq hij
  · exact main j i hgt heq.symm

theorem kahnAux_complete (edges : List (Nat × Nat)) :
    ∀ (fuel : Nat) (rem acc : List Nat), rem.length ≤ fuel → Acyclic edges →
      ∃ l, kahnAux edges fuel rem acc = some l := by
  intro fuel
  induction fuel with
  | zero =>
    intro rem acc hle _
    cases rem with
    | nil => exact ⟨acc.reverse, rfl⟩
    | cons x xs => simp at hle
  | succ fuel ih =>
    intro rem acc hle hacyc
    cases rem with
    | nil => exact ⟨acc.reverse, rfl⟩
    | cons x xs =>
      rcases hf : (x :: xs).find? (noIncoming edges (x :: xs)) with _ | y
      · exfalso
        rw [List.find?_eq_none] at hf
        apply hacyc
        apply cycle_of_all_incoming edges (x :: xs) (by simp)
        intro z hz
        have h2 := hf z hz
        unfold noIncoming at h2
        simp only [Bool.not_eq_true, List.all_eq_false] at h2
        obtain ⟨y, hy, hy2⟩ := h2
        simp only [List.contains, List.elem_eq_mem] at hy2
        simp at hy2
        exact ⟨y, hy, hy2⟩
      · have hy : y ∈ x :: xs := List.mem_of_find?_eq_some hf
        have hlen : ((x :: xs).erase y).length ≤ fuel := by
          rw [List.length_erase_of_mem hy]
          simp only [List.length_cons] at hle ⊢
          omega
        obtain ⟨l, hl⟩ := ih ((x :: xs).erase y) (y :: acc) hlen hacyc
        refine ⟨l, ?_⟩
        unfold kahnAux
        rw [hf]
        exact hl

theorem topo_pos_lt (edges : List (Nat × Nat)) (l : List Nat)
    (hpw : l.Pairwise (fun a b => (b, a) ∉ edges))
    (hself : ∀ x ∈ l, (x, x) ∉ edges) (hnd : l.Nodup)
    (u v : Nat) (he : (u, v) ∈ edges) (hu : u ∈ l) (hv : v ∈ l) :
    List.indexOf u l < List.indexOf v l := by
  rcases Nat.lt_trichotomy (List.indexOf u l) (List.indexOf v l) with h | h | h
  · exact h
  · exfalso
    have huv : u = v := (List.indexOf_inj hu hv).mp h
    exact (hself u hu) (huv ▸ he)
  · exfalso
    have hpg := List.pairwise_iff_getElem.mp hpw (List.indexOf v l) (List.indexOf u l)
      (List.indexOf_lt_length.mpr hv) (List.indexOf_lt_length.mpr hu) h
    rw [List.getElem_indexOf (List.indexOf_lt_length.mpr hv),
      List.getElem_indexOf (List.indexOf_lt_length.mpr hu)] at hpg
    exact hpg he

theorem transGen_pos_lt (n : Nat) (edges : List (Nat × Nat)) (l : List Nat)
    (hperm : l.Perm (List.range n))
    (hpw : l.Pairwise (fun a b => (b, a) ∉ edges))
    (hself : ∀ x ∈ l, (x, x) ∉ edges)
    (hb : ∀ e ∈ edges, e.1 < n ∧ e.2 < n)
    (a b : Nat) (h : Relation.TransGen (edgeRel edges) a b) :
    List.indexOf a l < List.indexOf b l := by
  have hnd : l.Nodup := hperm.nodup_iff.mpr (List.nodup_range n)
  have hmem : ∀ x, x < n → x ∈ l := by
    intro x hx
    exact hperm.mem_iff.mpr (List.mem_range.mpr hx)
  induction h with
  | single hedge =>
    have hb2 := hb _ hedge
    exact topo_pos_lt edges l hpw hself hnd _ _ hedge (hmem _ hb2.1) (hmem _ hb2.2)
  | tail hab hedge ih =>
    have hb2 := hb _ hedge
    exact Nat.lt_trans ih
      (topo_pos_lt edges l hpw hself hnd _ _ hedge (hmem _ hb2.1) (hmem _ hb2.2))

theorem toposort_props (n : Nat) (edges : List (Nat × Nat)) (l : List Nat)
    (ht : toposort n edges = some l) :
    l.Perm (List.range n) ∧ l.Pairwise (fun a b => (b, a) ∉ edges) ∧
      (∀ x ∈ l, (x, x) ∉ edges) := by
  obtain ⟨t, hl, hperm, hpw, hself⟩ :=
    kahnAux_sound edges n (List.range n) [] l (by simp) ht
  simp only [List.reverse_nil, List.nil_append] at hl
  subst hl
  exact ⟨hperm, hpw, hself⟩

theorem acyclic_of_toposort_some (n : Nat) (edges : List (Nat × Nat)) (l : List Nat)
    (ht : toposort n edges = some l) (hb : ∀ e ∈ edges, e.1 < n ∧ e.2 < n) :
    Acyclic edges := by
  obtain ⟨hperm, hpw, hself⟩ := toposort_props n edges l ht
  rintro ⟨a, ha⟩
  exact Nat.lt_irrefl _ (transGen_pos_lt n edges l hperm hpw hself hb a a ha)

theorem toposort_some_of_acyclic (n : Nat) (edges : List (Nat × Nat)) (hacyc : Acyclic edges) :
    ∃ l, toposort n edges = some l := by
  exact kahnAux_complete edges n (List.range n) [] (by simp) hacyc

end ScriptFlow

namespace ScriptFlow

theorem AList.eraseKey_not_mem {κ β : Type} [BEq κ] [LawfulBEq κ]
    (l : List (κ × β)) (k : κ) (h : k ∉ l.map Prod.fst) :
    AList.eraseKey l k = l := by
  unfold AList.eraseKey
  apply List.filter_eq_self.mpr
  intro p hp
  simp only [bne_iff_ne, ne_eq, decide_eq_true_eq]
  intro hc
  exact h (hc ▸ List.mem_map_of_mem Prod.fst hp)

theorem foldl_insert_nodup {κ β : Type} [BEq κ] [LawfulBEq κ] :
    ∀ (ps acc : List (κ × β)), ((acc ++ ps).map Prod.fst).Nodup →
      ps.foldl (fun m p => AList.insert m p.1 p.2) acc = acc ++ ps := by
  intro ps
  induction ps with
  | nil => intro acc _; simp
  | cons p rest ih =>
    intro acc hnd
    have hp1 : p.1 ∉ acc.map Prod.fst := by
      simp only [List.map_append, List.nodup_append] at hnd
      intro hc
      exact hnd.2.2 hc (by simp)
    show rest.foldl (fun m p => AList.insert m p.1 p.2) (AList.insert acc p.1 p.2) = _
    have hins : AList.insert acc p.1 p.2 = acc ++ [p] := by
      unfold AList.insert
      rw [AList.eraseKey_not_mem _ _ hp1]
    rw [hins]
    rw [ih (acc ++ [p]) (by simpa using hnd)]
    simp

theorem buildNodesMap_eq (nodes : List Node) (hnd : (nodes.map Node.guid).Nodup) :
    buildNodesMap nodes = nodes.enum.map (fun p => (p.2.guid, p.1)) := by
  unfold buildNodesMap
  have h1 : nodes.enum.foldl (fun m p => AList.insert m p.2.guid p.1) [] =
      (nodes.enum.map (fun p => (p.2.guid, p.1))).foldl
        (fun m p => AList.insert m p.1 p.2) [] := by
    rw [List.foldl_map]
  rw [h1, foldl_insert_nodup]
  · simp
  · simp only [List.nil_append, List.map_map]
    have : (Prod.fst ∘ fun p : Nat × Node => (p.2.guid, p.1)) =
        (fun p : Nat × Node => p.2.guid) := rfl
    rw [this]
    have h2 : nodes.enum.map (fun p : Nat × Node => p.2.guid) = nodes.map Node.guid := by
      have := List.enum_map_snd nodes
      calc nodes.enum.map (fun p : Nat × Node => p.2.guid)
        = (nodes.enum.map Prod.snd).map Node.guid := by rw [List.map_map]; rfl
      _ = nodes.map Node.guid := by rw [List.enum_map_snd]
    rw [h2]
    exact hnd

theorem AList.lookup_mem {κ β : Type} [BEq κ] [LawfulBEq κ]
    (l : List (κ × β)) (k : κ) (v : β) (h : AList.lookup l k = some v) :
    (k, v) ∈ l := by
  unfold AList.lookup at h
  rcases hf : l.find? (fun p => p.1 == k) with _ | p
  · rw [hf] at h; cases h
  · rw [hf] at h
    cases h
    have hm := List.mem_of_find?_eq_some hf
    have hp := List.find?_some hf
    simp only [beq_iff_eq] at hp
    have : p = (k, p.2) := by
      cases p
      simp at hp ⊢
      exact hp
    rw [← this]
    exact hm

theorem lookup_buildNodesMap_lt (nodes : List Node) (hnd : (nodes.map Node.guid).Nodup)
    (g i : Nat) (h : AList.lookup (buildNodesMap nodes) g = some i) :
    i < nodes.length := by
  rw [buildNodesMap_eq nodes hnd] at h
  have hm := AList.lookup_mem _ _ _ h
  obtain ⟨q, hq, hqe⟩ := List.mem_map.mp hm
  have : q.1 = i := congrArg Prod.snd hqe
  rw [← this]
  exact List.fst_lt_of_mem_enum hq

end ScriptFlow


namespace ScriptFlow

theorem linkEdges_bounds (nodesMap : List (Nat × Nat)) (g n : Nat)
    (hlk : ∀ k i, AList.lookup nodesMap k = some i → i < n) :
    ∀ (links : List Link) (es : List (Nat × Nat)),
      linkEdges nodesMap g links = VOut.ok es → ∀ e ∈ es, e.1 < n ∧ e.2 < n := by
  intro links
  induction links with
  | nil => intro es h e he; cases h; cases he
  | cons lk rest ih =>
    intro es h e he
    cases lk with
    | None => exact ih es h e he
    | NodeIndexed gl idx =>
      simp only [linkEdges] at h
      rcases h1 : AList.lookup nodesMap gl with _ | a <;> rw [h1] at h
      · rcases h2 : AList.lookup nodesMap g with _ | b <;> rw [h2] at h <;> cases h
      · rcases h2 : AList.lookup nodesMap g with _ | b <;> rw [h2] at h
        · cases h
        · rcases h3 : linkEdges nodesMap g rest with es2 | er | m <;> rw [h3] at h <;> cases h
          rcases List.mem_cons.mp he with he | he
          · subst he; exact ⟨hlk gl a h1, hlk g b h2⟩
          · exact ih es2 h3 e he

theorem nextNodeEdges_bounds (allNodes : List Node) (nodesMap : List (Nat × Nat)) (n : Nat)
    (hlk : ∀ k i, AList.lookup nodesMap k = some i → i < n)
    (node : Node) (es : List (Nat × Nat))
    (h : nextNodeEdges allNodes nodesMap node = VOut.ok es) :
    ∀ e ∈ es, e.1 < n ∧ e.2 < n := by
  intro e he
  rcases hn : node.next_node with _ | g | name <;> simp only [nextNodeEdges, hn] at h
  · cases h; cases he
  · rcases h1 : AList.lookup nodesMap node.guid with _ | a <;> rw [h1] at h
    · rcases h2 : AList.lookup nodesMap g with _ | b <;> rw [h2] at h <;> cases h
    · rcases h2 : AList.lookup nodesMap g with _ | b <;> rw [h2] at h <;> cases h
      rcases List.mem_cons.mp he with he | he
      · subst he; exact ⟨hlk node.guid a h1, hlk g b h2⟩
      · cases he
  · rcases hf : allNodes.find? (fun n2 => n2.name == name) with _ | n2 <;> simp only [hf] at h
    · cases h
    · rcases h1 : AList.lookup nodesMap node.guid with _ | a <;> rw [h1] at h
      · rcases h2 : AList.lookup nodesMap n2.guid with _ | b <;> rw [h2] at h <;> cases h
      · rcases h2 : AList.lookup nodesMap n2.guid with _ | b <;> rw [h2] at h <;> cases h
        rcases List.mem_cons.mp he with he | he
        · subst he; exact ⟨hlk node.guid a h1, hlk n2.guid b h2⟩
        · cases he

theorem collectEdges_bounds (allNodes : List Node) (nodesMap : List (Nat × Nat)) (n : Nat)
    (hlk : ∀ k i, AList.lookup nodesMap k = some i → i < n) :
    ∀ (nodes : List Node) (es : List (Nat × Nat)),
      collectEdges allNodes nodesMap nodes = VOut.ok es → ∀ e ∈ es, e.1 < n ∧ e.2 < n := by
  intro nodes
  induction nodes with
  | nil => intro es h e he; cases h; cases he
  | cons nd rest ih =>
    intro es h e he
    simp only [collectEdges] at h
    rcases h1 : nextNodeEdges allNodes nodesMap nd with e1 | er | m <;> rw [h1] at h
    · rcases h2 : linkEdges nodesMap nd.guid nd.input_links with e2 | er | m <;> rw [h2] at h
      · rcases h3 : collectEdges allNodes nodesMap rest with es2 | er | m <;> rw [h3] at h <;> cases h
        rcases List.mem_append.mp he with he | he
        · rcases List.mem_append.mp he with he | he
          · exact nextNodeEdges_bounds allNodes nodesMap n hlk nd e1 h1 e he
          · exact linkEdges_bounds nodesMap nd.guid n hlk nd.input_links e2 h2 e he
        · exact ih es2 h3 e he
      · cases h
      · cases h
    · cases h
    · cases h

def dfltNode : Node :=
  { guid := 0, name := "", node_type := NodeType.Halt,
    next_node := AstRef.None, input_links := [] }

theorem revLookup_enumFrom :
    ∀ (ns : List Node) (k i : Nat), k ≤ i → i < k + ns.length →
      ((ns.enumFrom k).map (fun p => (p.2.guid, p.1))).find? (fun p => p.2 == i) =
        some ((ns.getD (i - k) dfltNode).guid, i) := by
  intro ns
  induction ns with
  | nil => intro k i hk hi; simp at hi; omega
  | cons nd rest ih =>
    intro k i hk hi
    simp only [List.enumFrom, List.map_cons]
    by_cases hki : k = i
    · subst hki
      rw [List.find?_cons_of_pos _ (by simp)]
      simp [List.getD]
    · rw [List.find?_cons_of_neg _ (by simp; omega)]
      have h1 : k + 1 ≤ i := by omega
      have h2 : i < (k + 1) + rest.length := by
        simp only [List.length_cons] at hi; omega
      rw [ih (k + 1) i h1 h2]
      have : i - k = (i - (k + 1)) + 1 := by omega
      rw [this]
      simp [List.getD]

theorem revLookup_buildNodesMap (nodes : List Node) (hnd : (nodes.map Node.guid).Nodup)
    (i : Nat) (hi : i < nodes.length) :
    revLookup (buildNodesMap nodes) i = some ((nodes.getD i dfltNode).guid) := by
  rw [buildNodesMap_eq nodes hnd]
  unfold revLookup
  have henum : List.enum nodes = nodes.enumFrom 0 := rfl
  rw [henum, revLookup_enumFrom nodes 0 i (Nat.zero_le i) (by simpa using hi)]
  simp

theorem revLookupMany_buildNodesMap (nodes : List Node) (hnd : (nodes.map Node.guid).Nodup) :
    ∀ (l : List Nat), (∀ i ∈ l, i < nodes.length) →
      revLookupMany (buildNodesMap nodes) l =
        some (l.map (fun i => (nodes.getD i dfltNode).guid)) := by
  intro l
  induction l with
  | nil => intro _; rfl
  | cons i rest ih =>
    intro hb
    simp only [revLookupMany]
    rw [revLookup_buildNodesMap nodes hnd i (hb i (by simp))]
    rw [ih (fun j hj => hb j (by simp [hj]))]
    simp

end ScriptFlow


namespace ScriptFlow

/-- C6.  For a construct whose node graph (the control edge of each node
plus the data-dependency edge of each input link) was built successfully
and is acyclic, compilation of the construct succeeds, and the execution
order it produces lists the guid of the source of every edge strictly
before the guid of its target: a topological order with respect to both
edge kinds. -/
theorem compile_acyclic_topological (nodes : List Node) (edges : List (Nat × Nat))
    (hnd : (nodes.map Node.guid).Nodup)
    (hedges : collectEdges nodes (buildNodesMap nodes) nodes = VOut.ok edges)
    (hacyc : Acyclic edges) :
    ∃ order ends, compileOrder nodes = VOut.ok (order, ends) ∧
      ∀ e ∈ edges, ∀ ni nj, nodes[e.1]? = some ni → nodes[e.2]? = some nj →
        ∃ pi pj : Nat, pi < pj ∧ order[pi]? = some ni.guid ∧ order[pj]? = some nj.guid := by
  have hlk : ∀ k i, AList.lookup (buildNodesMap nodes) k = some i → i < nodes.length :=
    fun k i h => lookup_buildNodesMap_lt nodes hnd k i h
  have hb : ∀ e ∈ edges, e.1 < nodes.length ∧ e.2 < nodes.length :=
    collectEdges_bounds nodes (buildNodesMap nodes) nodes.length hlk nodes edges hedges
  obtain ⟨idx, hts⟩ := toposort_some_of_acyclic nodes.length edges hacyc
  obtain ⟨hperm, hpw, hself⟩ := toposort_props nodes.length edges idx hts
  have hmem : ∀ x ∈ idx, x < nodes.length := by
    intro x hx
    have := hperm.mem_iff.mp hx
    exact List.mem_range.mp this
  have hmem2 : ∀ x, x < nodes.length → x ∈ idx := by
    intro x hx
    exact hperm.mem_iff.mpr (List.mem_range.mpr hx)
  have hndidx : idx.Nodup := hperm.nodup_iff.mpr (List.nodup_range nodes.length)
  have h1 := revLookupMany_buildNodesMap nodes hnd idx hmem
  have hendb : ∀ i ∈ endNodeIdx edges nodes.length, i < nodes.length := by
    intro i hi
    unfold endNodeIdx at hi
    exact List.mem_range.mp (List.mem_of_mem_filter hi)
  have h2 := revLookupMany_buildNodesMap nodes hnd (endNodeIdx edges nodes.length) hendb
  refine ⟨idx.map (fun i => (nodes.getD i dfltNode).guid),
          (endNodeIdx edges nodes.length).map (fun i => (nodes.getD i dfltNode).guid),
          ?_, ?_⟩
  · simp only [compileOrder, hedges, hts, h1, h2]
  · intro e he ni nj hni hnj
    refine ⟨List.indexOf e.1 idx, List.indexOf e.2 idx, ?_, ?_, ?_⟩
    · exact topo_pos_lt edges idx hpw hself hndidx e.1 e.2 he
        (hmem2 e.1 (hb e he).1) (hmem2 e.2 (hb e he).2)
    · rw [List.getElem?_map]
      have hlt := List.indexOf_lt_length.mpr (hmem2 e.1 (hb e he).1)
      rw [List.getElem?_eq_getElem hlt, List.getElem_indexOf hlt]
      simp [hni]
    · rw [List.getElem?_map]
      have hlt := List.indexOf_lt_length.mpr (hmem2 e.2 (hb e he).2)
      rw [List.getElem?_eq_getElem hlt, List.getElem_indexOf hlt]
      simp [hnj]

def c6nodes : List Node :=
  [ { guid := 10, name := "a", node_type := NodeType.Halt,
      next_node := AstRef.Guid 11, input_links := [] },
    { guid := 11, name := "b", node_type := NodeType.Halt,
      next_node := AstRef.None, input_links := [] } ]

theorem compile_acyclic_topological_witness :
    ((c6nodes.map Node.guid).Nodup ∧
      collectEdges c6nodes (buildNodesMap c6nodes) c6nodes = VOut.ok [(0, 1)] ∧
      Acyclic [(0, 1)]) ∧
    (∃ order ends, compileOrder c6nodes = VOut.ok (order, ends) ∧
      ∀ e ∈ [(0, 1)], ∀ ni nj, c6nodes[e.1]? = some ni → c6nodes[e.2]? = some nj →
        ∃ pi pj : Nat, pi < pj ∧ order[pi]? = some ni.guid ∧ order[pj]? = some nj.guid) := by
  have hacyc : Acyclic [(0, 1)] :=
    acyclic_of_toposort_some 2 [(0, 1)] [0, 1] (by rfl) (by decide)
  exact ⟨⟨by decide, by rfl, hacyc⟩,
    compile_acyclic_topological c6nodes [(0, 1)] (by decide) (by rfl) hacyc⟩

end ScriptFlow


namespace ScriptFlow

theorem compileOrder_cyclic (nodes : List Node) (edges : List (Nat × Nat))
    (hnd : (nodes.map Node.guid).Nodup)
    (hedges : collectEdges nodes (buildNodesMap nodes) nodes = VOut.ok edges)
    (hcyc : ¬ Acyclic edges) :
    compileOrder nodes = VOut.error (VmError.CompilationError "Found flow graph to be cyclic") := by
  have hlk : ∀ k i, AList.lookup (buildNodesMap nodes) k = some i → i < nodes.length :=
    fun k i h => lookup_buildNodesMap_lt nodes hnd k i h
  have hb : ∀ e ∈ edges, e.1 < nodes.length ∧ e.2 < nodes.length :=
    collectEdges_bounds nodes (buildNodesMap nodes) nodes.length hlk nodes edges hedges
  have hts : toposort nodes.length edges = none := by
    rcases h : toposort nodes.length edges with _ | l
    · rfl
    · exact absurd (acyclic_of_toposort_some nodes.length edges l h hb) hcyc
  simp only [compileOrder, hedges, hts]

/-- The node lists of every method body `Vm::new` compiles: per type, per
implemented trait that resolves, the chosen override or default body of
every method the trait declares. -/
def methodConstructs (p : Program) : List (List Node) :=
  p.types.flatMap (fun t => t.traits_implementation.flatMap (fun pr =>
    match findTrait p pr.1 with
    | some tr => tr.methods.map (fun m => (chooseMethod pr.2 m).nodes)
    | none => []))

/-- All node graphs `Vm::new` compiles, in pipeline order: events, then
method bodies, then functions. -/
def constructsOf (p : Program) : List (List Node) :=
  p.events.map EventDef.nodes ++ methodConstructs p ++ p.functions.map FunctionDef.nodes

theorem compileEvents_member_ok :
    ∀ (evs : List EventDef) (acc : List (Nat × List Nat)) (ends : List Nat) r,
      compileEvents evs acc ends = VOut.ok r →
      ∀ ev ∈ evs, ∃ oe, compileOrder ev.nodes = VOut.ok oe := by
  intro evs
  induction evs with
  | nil => intro _ _ _ _ ev hev; cases hev
  | cons e rest ih =>
    intro acc ends r h ev hev
    simp only [compileEvents] at h
    rcases ho : compileOrder e.nodes with ⟨o, ed⟩ | er | m <;> simp only [ho] at h <;>
      try cases h
    rcases List.mem_cons.mp hev with rfl | hev2
    · exact ⟨(o, ed), ho⟩
    · exact ih _ _ _ h ev hev2

theorem compileFunctions_member_ok :
    ∀ (fns : List FunctionDef) (acc : List (Nat × List Nat)) (ends : List Nat) r,
      compileFunctions fns acc ends = VOut.ok r →
      ∀ f ∈ fns, ∃ oe, compileOrder f.nodes = VOut.ok oe := by
  intro fns
  induction fns with
  | nil => intro _ _ _ _ f hf; cases hf
  | cons e rest ih =>
    intro acc ends r h f hf
    simp only [compileFunctions] at h
    rcases ho : compileOrder e.nodes with ⟨o, ed⟩ | er | m <;> simp only [ho] at h <;>
      try cases h
    rcases List.mem_cons.mp hf with rfl | hf2
    · exact ⟨(o, ed), ho⟩
    · exact ih _ _ _ h f hf2

theorem compileTraitMethods_member_ok (tg : Nat) (methods : List MethodDef) :
    ∀ (ms : List MethodDef) acc ends r,
      compileTraitMethods tg methods ms acc ends = VOut.ok r →
      ∀ m ∈ ms, ∃ oe, compileOrder (chooseMethod methods m).nodes = VOut.ok oe := by
  intro ms
  induction ms with
  | nil => intro _ _ _ _ m hm; cases hm
  | cons m0 rest ih =>
    intro acc ends r h m hm
    simp only [compileTraitMethods] at h
    rcases ho : compileOrder (chooseMethod methods m0).nodes with ⟨o, ed⟩ | er | ms2 <;>
      simp only [ho] at h <;> try cases h
    rcases List.mem_cons.mp hm with rfl | hm2
    · exact ⟨(o, ed), ho⟩
    · exact ih _ _ _ h m hm2

theorem compileImpls_member_ok (p : Program) (tg : Nat) :
    ∀ (impls : List (AstRef × List MethodDef)) acc ends r,
      compileImpls p tg impls acc ends = VOut.ok r →
      ∀ pr ∈ impls, ∀ tr, findTrait p pr.1 = some tr →
        ∀ m ∈ tr.methods, ∃ oe, compileOrder (chooseMethod pr.2 m).nodes = VOut.ok oe := by
  intro impls
  induction impls with
  | nil => intro _ _ _ _ pr hpr; cases hpr
  | cons q rest ih =>
    intro acc ends r h pr hpr tr htr m hm
    obtain ⟨qr, qm⟩ := q
    simp only [compileImpls] at h
    rcases hf : findTrait p qr with _ | tr2 <;> simp only [hf] at h
    · rcases List.mem_cons.mp hpr with rfl | hpr2
      · rw [htr] at hf; cases hf
      · exact ih _ _ _ h pr hpr2 tr htr m hm
    · rcases hc : compileTraitMethods tg qm tr2.methods acc ends with ⟨am2, ae2⟩ | er | ms2 <;>
        simp only [hc] at h <;> try cases h
      rcases List.mem_cons.mp hpr with rfl | hpr2
      · have htr2 : tr = tr2 := by rw [htr] at hf; cases hf; rfl
        subst htr2
        exact compileTraitMethods_member_ok tg qm tr.methods acc ends _ hc m hm
      · exact ih _ _ _ h pr hpr2 tr htr m hm

theorem compileTypes_member_ok (p : Program) :
    ∀ (ts : List TypeDef) acc ends r,
      compileTypes p ts acc ends = VOut.ok r →
      ∀ t ∈ ts, ∀ pr ∈ t.traits_implementation, ∀ tr, findTrait p pr.1 = some tr →
        ∀ m ∈ tr.methods, ∃ oe, compileOrder (chooseMethod pr.2 m).nodes = VOut.ok oe := by
  intro ts
  induction ts with
  | nil => intro _ _ _ _ t ht; cases ht
  | cons t0 rest ih =>
    intro acc ends r h t ht pr hpr tr htr m hm
    simp only [compileTypes] at h
    rcases hc : compileImpls p t0.guid t0.traits_implementation acc ends with ⟨am2, ae2⟩ | er | ms2 <;>
      simp only [hc] at h <;> try cases h
    rcases List.mem_cons.mp ht with rfl | ht2
    · exact compileImpls_member_ok p t.guid t.traits_implementation acc ends _ hc pr hpr tr htr m hm
    · exact ih _ _ _ h t ht2 pr hpr tr htr m hm

theorem Vm.new_ok_members (p : Program) (vm : Vm) (h : Vm.new p = VOut.ok vm) :
    ∀ ns ∈ constructsOf p, ∃ oe, compileOrder ns = VOut.ok oe := by
  intro ns hns
  simp only [Vm.new] at h
  rcases h1 : typeMethodsAll p p.types [] with tm | er | m <;> simp only [h1] at h <;>
    try cases h
  rcases h2 : compileEvents p.events [] [] with ⟨eo, ends1⟩ | er | m <;> simp only [h2] at h <;>
    try cases h
  rcases h3 : compileTypes p p.types [] ends1 with ⟨mo, ends2⟩ | er | m <;>
    simp only [h3] at h <;> try cases h
  rcases h4 : compileFunctions p.functions [] ends2 with ⟨fo, ends3⟩ | er | m <;>
    simp only [h4] at h <;> try cases h
  rcases List.mem_append.mp hns with hns | hns
  · rcases List.mem_append.mp hns with hns | hns
    · obtain ⟨ev, hev, rfl⟩ := List.mem_map.mp hns
      exact compileEvents_member_ok p.events [] [] _ h2 ev hev
    · obtain ⟨t, ht, hns2⟩ := List.mem_flatMap.mp hns
      obtain ⟨pr, hpr, hns3⟩ := List.mem_flatMap.mp hns2
      rcases hf : findTrait p pr.1 with _ | tr <;> simp only [hf] at hns3
      · cases hns3
      · obtain ⟨m, hm, rfl⟩ := List.mem_map.mp hns3
        exact compileTypes_member_ok p p.types [] ends1 _ h3 t ht pr hpr tr hf m hm
  · obtain ⟨f, hfm, rfl⟩ := List.mem_map.mp hns
    exact compileFunctions_member_ok p.functions [] ends2 _ h4 f hfm

theorem compileEvents_cyc :
    ∀ (evs : List EventDef),
      (∀ ev ∈ evs, (∃ oe, compileOrder ev.nodes = VOut.ok oe) ∨
        compileOrder ev.nodes =
          VOut.error (VmError.CompilationError "Found flow graph to be cyclic")) →
      (∃ ev ∈ evs, compileOrder ev.nodes =
        VOut.error (VmError.CompilationError "Found flow graph to be cyclic")) →
      ∀ acc ends, compileEvents evs acc ends =
        VOut.error (VmError.CompilationError "Found flow graph to be cyclic") := by
  intro evs
  induction evs with
  | nil => intro _ hex _ _; obtain ⟨ev, hev, _⟩ := hex; cases hev
  | cons e rest ih =>
    intro hall hex acc ends
    rcases hall e (by simp) with ⟨⟨o, ed⟩, ho⟩ | hcy
    · simp only [compileEvents, ho]
      apply ih (fun ev hev => hall ev (by simp [hev]))
      obtain ⟨ev, hev, hc⟩ := hex
      rcases List.mem_cons.mp hev with rfl | hev2
      · rw [ho] at hc; cases hc
      · exact ⟨ev, hev2, hc⟩
    · simp only [compileEvents, hcy]

theorem compileEvents_ok :
    ∀ (evs : List EventDef),
      (∀ ev ∈ evs, ∃ oe, compileOrder ev.nodes = VOut.ok oe) →
      ∀ acc ends, ∃ r, compileEvents evs acc ends = VOut.ok r := by
  intro evs
  induction evs with
  | nil => intro _ acc ends; exact ⟨(acc, ends), rfl⟩
  | cons e rest ih =>
    intro hall acc ends
    obtain ⟨⟨o, ed⟩, ho⟩ := hall e (by simp)
    obtain ⟨r, hr⟩ := ih (fun ev hev => hall ev (by simp [hev]))
      (AList.insert acc e.guid o) (ends ++ ed)
    exact ⟨r, by simp only [compileEvents, ho]; exact hr⟩

theorem compileFunctions_cyc :
    ∀ (fns : List FunctionDef),
      (∀ f ∈ fns, (∃ oe, compileOrder f.nodes = VOut.ok oe) ∨
        compileOrder f.nodes =
          VOut.error (VmError.CompilationError "Found flow graph to be cyclic")) →
      (∃ f ∈ fns, compileOrder f.nodes =
        VOut.error (VmError.CompilationError "Found flow graph to be cyclic")) →
      ∀ acc ends, compileFunctions fns acc ends =
        VOut.error (VmError.CompilationError "Found flow graph to be cyclic") := by
  intro fns
  induction fns with
  | nil => intro _ hex _ _; obtain ⟨f, hf, _⟩ := hex; cases hf
  | cons e rest ih =>
    intro hall hex acc ends
    rcases hall e (by simp) with ⟨⟨o, ed⟩, ho⟩ | hcy
    · simp only [compileFunctions, ho]
      apply ih (fun f hf => hall f (by simp [hf]))
      obtain ⟨f, hf, hc⟩ := hex
      rcases List.mem_cons.mp hf with rfl | hf2
      · rw [ho] at hc; cases hc
      · exact ⟨f, hf2, hc⟩
    · simp only [compileFunctions, hcy]

theorem compileTraitMethods_ok (tg : Nat) (methods : List MethodDef) :
    ∀ (ms : List MethodDef),
      (∀ m ∈ ms, ∃ oe, compileOrder (chooseMethod methods m).nodes = VOut.ok oe) →
      ∀ acc ends, ∃ r, compileTraitMethods tg methods ms acc ends = VOut.ok r := by
  intro ms
  induction ms with
  | nil => intro _ acc ends; exact ⟨(acc, ends), rfl⟩
  | cons m0 rest ih =>
    intro hall acc ends
    obtain ⟨⟨o, ed⟩, ho⟩ := hall m0 (by simp)
    obtain ⟨r, hr⟩ := ih (fun m hm => hall m (by simp [hm]))
      (AList.insert acc (tg, (chooseMethod methods m0).guid) o) (ends ++ ed)
    exact ⟨r, by simp only [compileTraitMethods, ho]; exact hr⟩

theorem compileTraitMethods_cyc (tg : Nat) (methods : List MethodDef) :
    ∀ (ms : List MethodDef),
      (∀ m ∈ ms, (∃ oe, compileOrder (chooseMethod methods m).nodes = VOut.ok oe) ∨
        compileOrder (chooseMethod methods m).nodes =
          VOut.error (VmError.CompilationError "Found flow graph to be cyclic")) →
      (∃ m ∈ ms, compileOrder (chooseMethod methods m).nodes =
        VOut.error (VmError.CompilationError "Found flow graph to be cyclic")) →
      ∀ acc ends, compileTraitMethods tg methods ms acc ends =
        VOut.error (VmError.CompilationError "Found flow graph to be cyclic") := by
  intro ms
  induction ms with
  | nil => intro _ hex _ _; obtain ⟨m, hm, _⟩ := hex; cases hm
  | cons m0 rest ih =>
    intro hall hex acc ends
    rcases hall m0 (by simp) with ⟨⟨o, ed⟩, ho⟩ | hcy
    · simp only [compileTraitMethods, ho]
      apply ih (fun m hm => hall m (by simp [hm]))
      obtain ⟨m, hm, hc⟩ := hex
      rcases List.mem_cons.mp hm with rfl | hm2
      · rw [ho] at hc; cases hc
      · exact ⟨m, hm2, hc⟩
    · simp only [compileTraitMethods, hcy]

theorem compileImpls_ok (p : Program) (tg : Nat) :
    ∀ (impls : List (AstRef × List MethodDef)),
      (∀ pr ∈ impls, ∀ tr, findTrait p pr.1 = some tr →
        ∀ m ∈ tr.methods, ∃ oe, compileOrder (chooseMethod pr.2 m).nodes = VOut.ok oe) →
      ∀ acc ends, ∃ r, compileImpls p tg impls acc ends = VOut.ok r := by
  intro impls
  induction impls with
  | nil => intro _ acc ends; exact ⟨(acc, ends), rfl⟩
  | cons q rest ih =>
    intro hall acc ends
    obtain ⟨qr, qm⟩ := q
    rcases hf : findTrait p qr with _ | tr
    · obtain ⟨r, hr⟩ := ih (fun pr hpr => hall pr (by simp [hpr])) acc ends
      exact ⟨r, by simp only [compileImpls, hf]; exact hr⟩
    · obtain ⟨⟨am2, ae2⟩, hc⟩ :=
        compileTraitMethods_ok tg qm tr.methods
          (fun m hm => hall (qr, qm) (by simp) tr hf m hm) acc ends
      obtain ⟨r, hr⟩ := ih (fun pr hpr => hall pr (by simp [hpr])) am2 ae2
      exact ⟨r, by simp only [compileImpls, hf, hc]; exact hr⟩

theorem compileImpls_cyc (p : Program) (tg : Nat) :
    ∀ (impls : List (AstRef × List MethodDef)),
      (∀ pr ∈ impls, ∀ tr, findTrait p pr.1 = some tr →
        ∀ m ∈ tr.methods, (∃ oe, compileOrder (chooseMethod pr.2 m).nodes = VOut.ok oe) ∨
          compileOrder (chooseMethod pr.2 m).nodes =
            VOut.error (VmError.CompilationError "Found flow graph to be cyclic")) →
      (∃ pr ∈ impls, ∃ tr, findTrait p pr.1 = some tr ∧ ∃ m ∈ tr.methods,
        compileOrder (chooseMethod pr.2 m).nodes =
          VOut.error (VmError.CompilationError "Found flow graph to be cyclic")) →
      ∀ acc ends, compileImpls p tg impls acc ends =
        VOut.error (VmError.CompilationError "Found flow graph to be cyclic") := by
  intro impls
  induction impls with
  | nil => intro _ hex _ _; obtain ⟨pr, hpr, _⟩ := hex; cases hpr
  | cons q rest ih =>
    intro hall hex acc ends
    obtain ⟨qr, qm⟩ := q
    rcases hf : findTrait p qr with _ | tr2
    · simp only [compileImpls, hf]
      apply ih (fun pr hpr => hall pr (by simp [hpr]))
      obtain ⟨pr, hpr, tr, htr, hm⟩ := hex
      rcases List.mem_cons.mp hpr with rfl | hpr2
      · rw [htr] at hf; cases hf
      · exact ⟨pr, hpr2, tr, htr, hm⟩
    · by_cases hcase : ∃ m ∈ tr2.methods, compileOrder (chooseMethod qm m).nodes =
        VOut.error (VmError.CompilationError "Found flow graph to be cyclic")
      · have := compileTraitMethods_cyc tg qm tr2.methods
          (fun m hm => hall (qr, qm) (by simp) tr2 hf m hm) hcase acc ends
        simp only [compileImpls, hf, this]
      · have hallok : ∀ m ∈ tr2.methods,
            ∃ oe, compileOrder (chooseMethod qm m).nodes = VOut.ok oe := by
          intro m hm
          rcases hall (qr, qm) (by simp) tr2 hf m hm with hok | hcy
          · exact hok
          · exact absurd ⟨m, hm, hcy⟩ hcase
        obtain ⟨⟨am2, ae2⟩, hc⟩ := compileTraitMethods_ok tg qm tr2.methods hallok acc ends
        simp only [compileImpls, hf, hc]
        apply ih (fun pr hpr => hall pr (by simp [hpr]))
        obtain ⟨pr, hpr, tr, htr, m, hm, hcy⟩ := hex
        rcases List.mem_cons.mp hpr with rfl | hpr2
        · have htr2 : tr = tr2 := by rw [htr] at hf; cases hf; rfl
          subst htr2
          exact absurd ⟨m, hm, hcy⟩ hcase
        · exact ⟨pr, hpr2, tr, htr, m, hm, hcy⟩

theorem compileTypes_ok (p : Program) :
    ∀ (ts : List TypeDef),
      (∀ t ∈ ts, ∀ pr ∈ t.traits_implementation, ∀ tr, findTrait p pr.1 = some tr →
        ∀ m ∈ tr.methods, ∃ oe, compileOrder (chooseMethod pr.2 m).nodes = VOut.ok oe) →
      ∀ acc ends, ∃ r, compileTypes p ts acc ends = VOut.ok r := by
  intro ts
  induction ts with
  | nil => intro _ acc ends; exact ⟨(acc, ends), rfl⟩
  | cons t0 rest ih =>
    intro hall acc ends
    obtain ⟨⟨am2, ae2⟩, hc⟩ :=
      compileImpls_ok p t0.guid t0.traits_implementation
        (fun pr hpr => hall t0 (by simp) pr hpr) acc ends
    obtain ⟨r, hr⟩ := ih (fun t ht => hall t (by simp [ht])) am2 ae2
    exact ⟨r, by simp only [compileTypes, hc]; exact hr⟩

theorem compileTypes_cyc (p : Program) :
    ∀ (ts : List TypeDef),
      (∀ t ∈ ts, ∀ pr ∈ t.traits_implementation, ∀ tr, findTrait p pr.1 = some tr →
        ∀ m ∈ tr.methods, (∃ oe, compileOrder (chooseMethod pr.2 m).nodes = VOut.ok oe) ∨
          compileOrder (chooseMethod pr.2 m).nodes =
            VOut.error (VmError.CompilationError "Found flow graph to be cyclic")) →
      (∃ t ∈ ts, ∃ pr ∈ t.traits_implementation, ∃ tr, findTrait p pr.1 = some tr ∧
        ∃ m ∈ tr.methods, compileOrder (chooseMethod pr.2 m).nodes =
          VOut.error (VmError.CompilationError "Found flow graph to be cyclic")) →
      ∀ acc ends, compileTypes p ts acc ends =
        VOut.error (VmError.CompilationError "Found flow graph to be cyclic") := by
  intro ts
  induction ts with
  | nil => intro _ hex _ _; obtain ⟨t, ht, _⟩ := hex; cases ht
  | cons t0 rest ih =>
    intro hall hex acc ends
    by_cases hcase : ∃ pr ∈ t0.traits_implementation, ∃ tr, findTrait p pr.1 = some tr ∧
        ∃ m ∈ tr.methods, compileOrder (chooseMethod pr.2 m).nodes =
          VOut.error (VmError.CompilationError "Found flow graph to be cyclic")
    · have := compileImpls_cyc p t0.guid t0.traits_implementation
        (fun pr hpr => hall t0 (by simp) pr hpr) hcase acc ends
      simp only [compileTypes, this]
    · have hallok : ∀ pr ∈ t0.traits_implementation, ∀ tr, findTrait p pr.1 = some tr →
          ∀ m ∈ tr.methods, ∃ oe, compileOrder (chooseMethod pr.2 m).nodes = VOut.ok oe := by
        intro pr hpr tr htr m hm
        rcases hall t0 (by simp) pr hpr tr htr m hm with hok | hcy
        · exact hok
        · exact absurd ⟨pr, hpr, tr, htr, m, hm, hcy⟩ hcase
      obtain ⟨⟨am2, ae2⟩, hc⟩ :=
        compileImpls_ok p t0.guid t0.traits_implementation hallok acc ends
      simp only [compileTypes, hc]
      apply ih (fun t ht => hall t (by simp [ht]))
      obtain ⟨t, ht, pr, hpr, tr, htr, m, hm, hcy⟩ := hex
      rcases List.mem_cons.mp ht with rfl | ht2
      · exact absurd ⟨pr, hpr, tr, htr, m, hm, hcy⟩ hcase
      · exact ⟨t, ht2, pr, hpr, tr, htr, m, hm, hcy⟩

end ScriptFlow


namespace ScriptFlow

/-- C7.  When any construct the compiler processes (an event, a method
body, or a function) has a cyclic node graph, `Vm::new` never returns an
engine value; and when the rest of the program is well formed (the
dispatch table builds, and every construct either compiles or is itself
cyclic), construction fails with exactly the cyclic-graph compilation
error. -/
theorem vm_new_cyclic_fails (p : Program) (ns : List Node) (edges : List (Nat × Nat))
    (hmem : ns ∈ constructsOf p)
    (hnd : (ns.map Node.guid).Nodup)
    (hedges : collectEdges ns (buildNodesMap ns) ns = VOut.ok edges)
    (hcyc : ¬ Acyclic edges) :
    (∀ vm, Vm.new p ≠ VOut.ok vm) ∧
    ((∃ tm, typeMethodsAll p p.types [] = VOut.ok tm) →
      (∀ ns2 ∈ constructsOf p,
        (∃ oe, compileOrder ns2 = VOut.ok oe) ∨
          compileOrder ns2 =
            VOut.error (VmError.CompilationError "Found flow graph to be cyclic")) →
      Vm.new p = VOut.error (VmError.CompilationError "Found flow graph to be cyclic")) := by
  have hco : compileOrder ns =
      VOut.error (VmError.CompilationError "Found flow graph to be cyclic") :=
    compileOrder_cyclic ns edges hnd hedges hcyc
  constructor
  · intro vm hok
    obtain ⟨oe, hoe⟩ := Vm.new_ok_members p vm hok ns hmem
    rw [hco] at hoe; cases hoe
  · rintro ⟨tm, htm⟩ hall
    have hallE : ∀ ev ∈ p.events, (∃ oe, compileOrder ev.nodes = VOut.ok oe) ∨
        compileOrder ev.nodes =
          VOut.error (VmError.CompilationError "Found flow graph to be cyclic") := by
      intro ev hev
      exact hall ev.nodes
        (List.mem_append_left _ (List.mem_append_left _ (List.mem_map_of_mem _ hev)))
    have hallM : ∀ t ∈ p.types, ∀ pr ∈ t.traits_implementation, ∀ tr,
        findTrait p pr.1 = some tr → ∀ m ∈ tr.methods,
        (∃ oe, compileOrder (chooseMethod pr.2 m).nodes = VOut.ok oe) ∨
          compileOrder (chooseMethod pr.2 m).nodes =
            VOut.error (VmError.CompilationError "Found flow graph to be cyclic") := by
      intro t ht pr hpr tr htr m hm
      apply hall
      apply List.mem_append_left
      apply List.mem_append_right
      exact List.mem_flatMap.mpr ⟨t, ht, List.mem_flatMap.mpr ⟨pr, hpr, by
        simp only [htr]; exact List.mem_map_of_mem _ hm⟩⟩
    have hallF : ∀ f ∈ p.functions, (∃ oe, compileOrder f.nodes = VOut.ok oe) ∨
        compileOrder f.nodes =
          VOut.error (VmError.CompilationError "Found flow graph to be cyclic") := by
      intro f hf
      exact hall f.nodes (List.mem_append_right _ (List.mem_map_of_mem _ hf))
    by_cases hE : ∃ ev ∈ p.events, compileOrder ev.nodes =
        VOut.error (VmError.CompilationError "Found flow graph to be cyclic")
    · have hce := compileEvents_cyc p.events hallE hE [] []
      simp only [Vm.new, htm, hce]
    · have hallEok : ∀ ev ∈ p.events, ∃ oe, compileOrder ev.nodes = VOut.ok oe := by
        intro ev hev
        rcases hallE ev hev with hok | hcy
        · exact hok
        · exact absurd ⟨ev, hev, hcy⟩ hE
      obtain ⟨⟨eo, ends1⟩, hce⟩ := compileEvents_ok p.events hallEok [] []
      by_cases hM : ∃ t ∈ p.types, ∃ pr ∈ t.traits_implementation, ∃ tr,
          findTrait p pr.1 = some tr ∧ ∃ m ∈ tr.methods,
          compileOrder (chooseMethod pr.2 m).nodes =
            VOut.error (VmError.CompilationError "Found flow graph to be cyclic")
      · have hct := compileTypes_cyc p p.types hallM hM [] ends1
        simp only [Vm.new, htm, hce, hct]
      · have hallMok : ∀ t ∈ p.types, ∀ pr ∈ t.traits_implementation, ∀ tr,
            findTrait p pr.1 = some tr → ∀ m ∈ tr.methods,
            ∃ oe, compileOrder (chooseMethod pr.2 m).nodes = VOut.ok oe := by
          intro t ht pr hpr tr htr m hm
          rcases hallM t ht pr hpr tr htr m hm with hok | hcy
          · exact hok
          · exact absurd ⟨t, ht, pr, hpr, tr, htr, m, hm, hcy⟩ hM
        obtain ⟨⟨mo, ends2⟩, hct⟩ := compileTypes_ok p p.types hallMok [] ends1
        by_cases hF : ∃ f ∈ p.functions, compileOrder f.nodes =
            VOut.error (VmError.CompilationError "Found flow graph to be cyclic")
        · have hcf := compileFunctions_cyc p.functions hallF hF [] ends2
          simp only [Vm.new, htm, hce, hct, hcf]
        · exfalso
          rcases List.mem_append.mp hmem with hns | hns
          · rcases List.mem_append.mp hns with hns | hns
            · obtain ⟨ev, hev, heq⟩ := List.mem_map.mp hns
              exact hE ⟨ev, hev, by rw [heq]; exact hco⟩
            · obtain ⟨t, ht, hns2⟩ := List.mem_flatMap.mp hns
              obtain ⟨pr, hpr, hns3⟩ := List.mem_flatMap.mp hns2
              rcases hf2 : findTrait p pr.1 with _ | tr <;> simp only [hf2] at hns3
              · cases hns3
              · obtain ⟨m, hm, heq⟩ := List.mem_map.mp hns3
                exact hM ⟨t, ht, pr, hpr, tr, hf2, m, hm, by rw [heq]; exact hco⟩
          · obtain ⟨f, hfm, heq⟩ := List.mem_map.mp hns
            exact hF ⟨f, hfm, by rw [heq]; exact hco⟩

def c7nodes : List Node :=
  [ { guid := 10, name := "a", node_type := NodeType.Halt,
      next_node := AstRef.Guid 11, input_links := [] },
    { guid := 11, name := "b", node_type := NodeType.Halt,
      next_node := AstRef.Guid 10, input_links := [] } ]

def c7prog : Program :=
  { events := [ { guid := 1, name := "ev", input_constrains := [],
                  output_constrains := [], «variables» := [],
                  entry_node := AstRef.Guid 10, nodes := c7nodes } ]
    functions := []
    types := []
    traits := []
    «variables» := []
    operations := [] }

theorem vm_new_cyclic_fails_witness :
    (c7nodes ∈ constructsOf c7prog ∧ (c7nodes.map Node.guid).Nodup ∧
      collectEdges c7nodes (buildNodesMap c7nodes) c7nodes = VOut.ok [(0, 1), (1, 0)] ∧
      ¬ Acyclic [(0, 1), (1, 0)]) ∧
    (∀ vm, Vm.new c7prog ≠ VOut.ok vm) ∧
    Vm.new c7prog = VOut.error (VmError.CompilationError "Found flow graph to be cyclic") := by
  have hm : c7nodes ∈ constructsOf c7prog := by
    have h : constructsOf c7prog = [c7nodes] := rfl
    rw [h]
    exact List.mem_singleton.mpr rfl
  have hnd : (c7nodes.map Node.guid).Nodup := by decide
  have hed : collectEdges c7nodes (buildNodesMap c7nodes) c7nodes =
      VOut.ok [(0, 1), (1, 0)] := rfl
  have hcyc : ¬ Acyclic [(0, 1), (1, 0)] := by
    intro hA
    apply hA
    have h01 : edgeRel [(0, 1), (1, 0)] 0 1 := by simp [edgeRel]
    have h10 : edgeRel [(0, 1), (1, 0)] 1 0 := by simp [edgeRel]
    exact ⟨0, Relation.TransGen.tail (Relation.TransGen.single h01) h10⟩
  have hmain := vm_new_cyclic_fails c7prog c7nodes [(0, 1), (1, 0)] hm hnd hed hcyc
  refine ⟨⟨hm, hnd, hed, hcyc⟩, hmain.1, ?_⟩
  apply hmain.2 ⟨[], rfl⟩
  intro ns2 hns2
  have h : constructsOf c7prog = [c7nodes] := rfl
  rw [h] at hns2
  have : ns2 = c7nodes := List.mem_singleton.mp hns2
  subst this
  exact Or.inr rfl

end ScriptFlow


namespace ScriptFlow

mutual

/-- Modelled from the spec: well-formedness of an external interchange
document for the round trip — every mapping has string keys, and (a
mapping being a map) no key occurs twice. -/
def docWF : PrefabValue → Bool
  | PrefabValue.null => true
  | PrefabValue.bool _ => true
  | PrefabValue.number _ => true
  | PrefabValue.string _ => true
  | PrefabValue.sequence items => docWFList items
  | PrefabValue.mapping entries => docWFMap entries

/-- Well-formedness of the items of a sequence. -/
def docWFList : List PrefabValue → Bool
  | [] => true
  | v :: rest => docWF v && docWFList rest

/-- Well-formedness of mapping entries: each key is a string not repeated
later, each value well-formed. -/
def docWFMap : List (PrefabValue × PrefabValue) → Bool
  | [] => true
  | (PrefabValue.string ks, v) :: rest =>
    !(rest.any (fun e =>
        match e.1 with
        | PrefabValue.string ks2 => ks2 == ks
        | _ => false)) &&
      docWF v && docWFMap rest
  | (_, _) :: _ => false

end

theorem docEqFuel_mono : ∀ f : Nat,
    (∀ a b, docEqFuel f a b = true → ∀ f2, f ≤ f2 → docEqFuel f2 a b = true) ∧
    (∀ xs ys, docEqListFuel f xs ys = true → ∀ f2, f ≤ f2 → docEqListFuel f2 xs ys = true) ∧
    (∀ xs ys, docEqMapSubFuel f xs ys = true → ∀ f2, f ≤ f2 → docEqMapSubFuel f2 xs ys = true) ∧
    (∀ k v ys, docEqFindFuel f k v ys = true → ∀ f2, f ≤ f2 → docEqFindFuel f2 k v ys = true) := by
  intro f
  induction f with
  | zero =>
    refine ⟨?_, ?_, ?_, ?_⟩
    · intro a b h
      cases h
    · intro xs ys h f2 _
      cases xs with
      | nil =>
        cases ys with
        | nil => cases f2 <;> rfl
        | cons y ys => cases h
      | cons x xs => cases h
    · intro xs ys h f2 _
      cases xs with
      | nil => cases f2 <;> rfl
      | cons x xs => cases h
    · intro k v ys h f2 _
      cases ys with
      | nil => cases h
      | cons y ys => cases h
  | succ g ih =>
    obtain ⟨ihd, ihl, ihm, ihf⟩ := ih
    refine ⟨?_, ?_, ?_, ?_⟩
    · intro a b h f2 hf2
      obtain ⟨g2, rfl⟩ : ∃ g2, f2 = g2 + 1 := ⟨f2 - 1, by omega⟩
      have hg2 : g ≤ g2 := by omega
      cases a <;> cases b <;> simp only [docEqFuel] at h ⊢ <;>
        first
        | rfl
        | exact h
        | exact ihl _ _ h g2 hg2
        | skip
      simp only [Bool.and_eq_true] at h ⊢
      exact ⟨h.1, ihm _ _ h.2 g2 hg2⟩
    · intro xs ys h f2 hf2
      cases xs with
      | nil =>
        cases ys with
        | nil => cases f2 <;> rfl
        | cons y ys => cases h
      | cons x xs =>
        cases ys with
        | nil => cases h
        | cons y ys =>
          obtain ⟨g2, rfl⟩ : ∃ g2, f2 = g2 + 1 := ⟨f2 - 1, by omega⟩
          have hg2 : g ≤ g2 := by omega
          simp only [docEqListFuel, Bool.and_eq_true] at h ⊢
          exact ⟨ihd _ _ h.1 g2 hg2, ihl _ _ h.2 g2 hg2⟩
    · intro xs ys h f2 hf2
      cases xs with
      | nil => cases f2 <;> rfl
      | cons x xs =>
        obtain ⟨k0, v0⟩ := x
        obtain ⟨g2, rfl⟩ : ∃ g2, f2 = g2 + 1 := ⟨f2 - 1, by omega⟩
        have hg2 : g ≤ g2 := by omega
        simp only [docEqMapSubFuel, Bool.and_eq_true] at h ⊢
        exact ⟨ihf _ _ _ h.1 g2 hg2, ihm _ _ h.2 g2 hg2⟩
    · intro k v ys h f2 hf2
      cases ys with
      | nil => cases h
      | cons y ys =>
        obtain ⟨k2, v2⟩ := y
        obtain ⟨g2, rfl⟩ : ∃ g2, f2 = g2 + 1 := ⟨f2 - 1, by omega⟩
        have hg2 : g ≤ g2 := by omega
        simp only [docEqFindFuel, Bool.or_eq_true, Bool.and_eq_true] at h ⊢
        rcases h with ⟨ha, hb⟩ | h1
        · exact Or.inl ⟨ihd _ _ ha g2 hg2, ihd _ _ hb g2 hg2⟩
        · exact Or.inr (ihf _ _ _ h1 g2 hg2)

theorem docEqFindFuel_of_mem (k v : PrefabValue) :
    ∀ (b : List (PrefabValue × PrefabValue)) (k2 v2 : PrefabValue), (k2, v2) ∈ b →
      docEq k k2 = true → docEq v v2 = true →
      ∀ f, docSize k + docSize v + docSizeMap b ≤ f → docEqFindFuel f k v b = true := by
  intro b
  induction b with
  | nil => intro k2 v2 hm; cases hm
  | cons y rest ih =>
    intro k2 v2 hm hk hv f hf
    obtain ⟨ky, vy⟩ := y
    simp only [docSizeMap] at hf
    obtain ⟨g, rfl⟩ : ∃ g, f = g + 1 := ⟨f - 1, by omega⟩
    simp only [docEq] at hk hv
    simp only [docEqFindFuel, Bool.or_eq_true, Bool.and_eq_true]
    rcases List.mem_cons.mp hm with heq | hm2
    · rw [Prod.mk.injEq] at heq
      obtain ⟨rfl, rfl⟩ := heq
      refine Or.inl ⟨?_, ?_⟩
      · exact (docEqFuel_mono _).1 _ _ hk g (by omega)
      · exact (docEqFuel_mono _).1 _ _ hv g (by omega)
    · refine Or.inr ?_
      apply ih k2 v2 hm2 (by simp only [docEq]; exact hk) (by simp only [docEq]; exact hv) g
        (by omega)

theorem docEqMapSubFuel_of_forall :
    ∀ (a b : List (PrefabValue × PrefabValue)),
      (∀ e2 ∈ a, ∃ e ∈ b, docEq e2.1 e.1 = true ∧ docEq e2.2 e.2 = true) →
      ∀ f, docSizeMap a + docSizeMap b ≤ f → docEqMapSubFuel f a b = true := by
  intro a
  induction a with
  | nil => intro b _ f _; cases f <;> rfl
  | cons x rest ih =>
    intro b hall f hf
    obtain ⟨k, v⟩ := x
    simp only [docSizeMap] at hf
    obtain ⟨g, rfl⟩ : ∃ g, f = g + 1 := ⟨f - 1, by omega⟩
    simp only [docEqMapSubFuel, Bool.and_eq_true]
    obtain ⟨e, he, hk, hv⟩ := hall (k, v) (by simp)
    refine ⟨?_, ?_⟩
    · exact docEqFindFuel_of_mem k v b e.1 e.2 (by rw [Prod.mk.eta]; exact he) hk hv g
        (by omega)
    · exact ih b (fun e2 he2 => hall e2 (by simp [he2])) g (by omega)

theorem docEqListFuel_of_forall2 :
    ∀ (ds items : List PrefabValue), List.Forall₂ (fun a b => docEq a b = true) ds items →
      ∀ f, docSizeList ds + docSizeList items ≤ f → docEqListFuel f ds items = true := by
  intro ds
  induction ds with
  | nil =>
    intro items hfa f _
    cases hfa
    cases f <;> rfl
  | cons x rest ih =>
    intro items hfa f hf
    cases hfa with
    | cons hxy hrest =>
      rename_i y ys
      simp only [docSizeList] at hf
      obtain ⟨g, rfl⟩ : ∃ g, f = g + 1 := ⟨f - 1, by omega⟩
      simp only [docEqListFuel, Bool.and_eq_true]
      refine ⟨?_, ?_⟩
      · simp only [docEq] at hxy
        exact (docEqFuel_mono _).1 _ _ hxy g (by omega)
      · exact ih ys hrest g (by omega)

theorem mem_btreeInsert (k : String) (v : Nat) :
    ∀ (l : List (String × Nat)) (pr : String × Nat), pr ∈ btreeInsert k v l →
      pr = (k, v) ∨ pr ∈ l := by
  intro l
  induction l with
  | nil =>
    intro pr hpr
    simp only [btreeInsert] at hpr
    exact Or.inl (List.mem_singleton.mp hpr)
  | cons y rest ih =>
    intro pr hpr
    obtain ⟨k2, v2⟩ := y
    simp only [btreeInsert] at hpr
    by_cases h1 : k < k2
    · rw [if_pos h1] at hpr
      rcases List.mem_cons.mp hpr with heq | hpr2
      · exact Or.inl heq
      · exact Or.inr hpr2
    · rw [if_neg h1] at hpr
      by_cases h2 : k = k2
      · rw [if_pos h2] at hpr
        rcases List.mem_cons.mp hpr with heq | hpr2
        · exact Or.inl heq
        · exact Or.inr (List.mem_cons_of_mem _ hpr2)
      · rw [if_neg h2] at hpr
        rcases List.mem_cons.mp hpr with heq | hpr2
        · exact Or.inr (heq ▸ List.mem_cons_self _ _)
        · rcases ih pr hpr2 with h | h
          · exact Or.inl h
          · exact Or.inr (List.mem_cons_of_mem _ h)

theorem btreeInsert_length (k : String) (v : Nat) :
    ∀ (l : List (String × Nat)), k ∉ l.map Prod.fst →
      (btreeInsert k v l).length = l.length + 1 := by
  intro l
  induction l with
  | nil => intro _; rfl
  | cons y rest ih =>
    intro hk
    obtain ⟨k2, v2⟩ := y
    simp only [List.map_cons, List.mem_cons] at hk
    push_neg at hk
    simp only [btreeInsert]
    by_cases h1 : k < k2
    · rw [if_pos h1]; simp
    · rw [if_neg h1, if_neg hk.1]
      simp only [List.length_cons]
      rw [ih hk.2]

end ScriptFlow


namespace ScriptFlow

theorem intoPrefab_mono : ∀ f : Nat,
    (∀ h v d, Value.intoPrefab f h v = some d →
      ∀ f2, f ≤ f2 → Value.intoPrefab f2 h v = some d) ∧
    (∀ h rs ds, intoPrefabRefs f h rs = some ds →
      ∀ f2, f ≤ f2 → intoPrefabRefs f2 h rs = some ds) ∧
    (∀ h ps es, intoPrefabEntries f h ps = some es →
      ∀ f2, f ≤ f2 → intoPrefabEntries f2 h ps = some es) := by
  intro f
  induction f with
  | zero =>
    refine ⟨?_, ?_, ?_⟩
    · intro h v d hd f2 _
      cases v <;> simp only [Value.intoPrefab] at hd <;> try cases hd
      all_goals (cases f2 <;> simp only [Value.intoPrefab] <;> rfl)
    · intro h rs ds hd f2 _
      cases rs with
      | nil =>
        cases hd
        cases f2 <;> rfl
      | cons r rest => cases hd
    · intro h ps es hd f2 _
      cases ps with
      | nil =>
        cases hd
        cases f2 <;> rfl
      | cons p rest => cases hd
  | succ g ih =>
    obtain ⟨ihd, ihr, ihe⟩ := ih
    refine ⟨?_, ?_, ?_⟩
    · intro h v d hd f2 hf2
      obtain ⟨g2, rfl⟩ : ∃ g2, f2 = g2 + 1 := ⟨f2 - 1, by omega⟩
      have hg2 : g ≤ g2 := by omega
      cases v with
      | None => exact hd
      | Bool b => exact hd
      | Number n => exact hd
      | String s => exact hd
      | List refs =>
        simp only [Value.intoPrefab] at hd ⊢
        rcases hr : intoPrefabRefs g h refs with _ | items <;> simp only [hr] at hd
        · cases hd
        · cases hd
          simp only [ihr _ _ _ hr g2 hg2]
      | Object ps =>
        simp only [Value.intoPrefab] at hd ⊢
        rcases hr : intoPrefabEntries g h ps with _ | entries <;> simp only [hr] at hd
        · cases hd
        · cases hd
          simp only [ihe _ _ _ hr g2 hg2]
    · intro h rs ds hd f2 hf2
      cases rs with
      | nil =>
        cases hd
        cases f2 <;> rfl
      | cons r rest =>
        obtain ⟨g2, rfl⟩ : ∃ g2, f2 = g2 + 1 := ⟨f2 - 1, by omega⟩
        have hg2 : g ≤ g2 := by omega
        simp only [intoPrefabRefs] at hd ⊢
        rcases h1 : Heap.read h r with _ | v <;> simp only [h1] at hd ⊢
        · cases hd
        · rcases h2 : Value.intoPrefab g h v with _ | d0 <;> simp only [h2] at hd
          · cases hd
          · rcases h3 : intoPrefabRefs g h rest with _ | ds0 <;> simp only [h3] at hd
            · cases hd
            · cases hd
              simp only [ihd _ _ _ h2 g2 hg2, ihr _ _ _ h3 g2 hg2]
    · intro h ps es hd f2 hf2
      cases ps with
      | nil =>
        cases hd
        cases f2 <;> rfl
      | cons p rest =>
        obtain ⟨k, r⟩ := p
        obtain ⟨g2, rfl⟩ : ∃ g2, f2 = g2 + 1 := ⟨f2 - 1, by omega⟩
        have hg2 : g ≤ g2 := by omega
        simp only [intoPrefabEntries] at hd ⊢
        rcases h1 : Heap.read h r with _ | v <;> simp only [h1] at hd ⊢
        · cases hd
        · rcases h2 : Value.intoPrefab g h v with _ | d0 <;> simp only [h2] at hd
          · cases hd
          · rcases h3 : intoPrefabEntries g h rest with _ | es0 <;> simp only [h3] at hd
            · cases hd
            · cases hd
              simp only [ihd _ _ _ h2 g2 hg2, ihe _ _ _ h3 g2 hg2]

/-- The cell behind handle `r` of heap `H` converts back (with some fuel)
to a document equal to `dorig`, and keeps doing so under any later heap
growth (the Rust heap only ever appends). -/
def CellRT (H : Heap) (r : Nat) (dorig : PrefabValue) : Prop :=
  ∀ hrest : Heap, ∃ fuel v d2, Heap.read (H ++ hrest) r = some v ∧
    Value.intoPrefab fuel (H ++ hrest) v = some d2 ∧ docEq d2 dorig = true

theorem CellRT_extend (H e : Heap) (r : Nat) (d : PrefabValue)
    (h : CellRT H r d) : CellRT (H ++ e) r d := by
  intro hrest
  have := h (e ++ hrest)
  rwa [← List.append_assoc] at this

theorem intoPrefabRefs_of_cells (H : Heap) :
    ∀ (rs : List Nat) (items : List PrefabValue),
      List.Forall₂ (fun r dorig => CellRT H r dorig) rs items →
      ∀ hrest, ∃ fuel ds, intoPrefabRefs fuel (H ++ hrest) rs = some ds ∧
        List.Forall₂ (fun d2 dorig => docEq d2 dorig = true) ds items := by
  intro rs
  induction rs with
  | nil =>
    intro items hfa hrest
    cases hfa
    exact ⟨0, [], rfl, List.Forall₂.nil⟩
  | cons r rest ih =>
    intro items hfa hrest
    cases hfa with
    | cons hhead htail =>
      rename_i dorig dorigs
      obtain ⟨f1, v, d2, hread, hinto, heq⟩ := hhead hrest
      obtain ⟨f2, ds, hrefs, hfa2⟩ := ih dorigs htail hrest
      refine ⟨max f1 f2 + 1, d2 :: ds, ?_, List.Forall₂.cons heq hfa2⟩
      simp only [intoPrefabRefs, hread]
      have h1 := (intoPrefab_mono f1).1 _ _ _ hinto (max f1 f2) (Nat.le_max_left _ _)
      have h2 := (intoPrefab_mono f2).2.1 _ _ _ hrefs (max f1 f2) (Nat.le_max_right _ _)
      simp only [h1, h2]

theorem intoPrefabEntries_of_cells (H : Heap) (Q : String × Nat → PrefabValue → Prop) :
    ∀ (ps : List (String × Nat)),
      (∀ pr ∈ ps, ∃ dorig, CellRT H pr.2 dorig ∧ Q pr dorig) →
      ∀ hrest, ∃ fuel es, intoPrefabEntries fuel (H ++ hrest) ps = some es ∧
        List.Forall₂ (fun (e2 : PrefabValue × PrefabValue) (pr : String × Nat) =>
          e2.1 = PrefabValue.string pr.1 ∧
            ∃ dorig, Q pr dorig ∧ docEq e2.2 dorig = true) es ps := by
  intro ps
  induction ps with
  | nil =>
    intro _ hrest
    exact ⟨0, [], rfl, List.Forall₂.nil⟩
  | cons p rest ih =>
    intro hall hrest
    obtain ⟨k, r⟩ := p
    obtain ⟨dorig, hcell, hq⟩ := hall (k, r) (by simp)
    obtain ⟨f1, v, d2, hread, hinto, heq⟩ := hcell hrest
    obtain ⟨f2, es, hes, hfa⟩ := ih (fun pr hpr => hall pr (by simp [hpr])) hrest
    refine ⟨max f1 f2 + 1, (PrefabValue.string k, d2) :: es, ?_, ?_⟩
    · simp only [intoPrefabEntries, hread]
      have h1 := (intoPrefab_mono f1).1 _ _ _ hinto (max f1 f2) (Nat.le_max_left _ _)
      have h2 := (intoPrefab_mono f2).2.2 _ _ _ hes (max f1 f2) (Nat.le_max_right _ _)
      simp only [h1, h2]
    · exact List.Forall₂.cons ⟨rfl, dorig, hq, heq⟩ hfa

theorem forall2_mem_left {α β : Type} {R : α → β → Prop} :
    ∀ {xs : List α} {ys : List β}, List.Forall₂ R xs ys → ∀ x ∈ xs, ∃ y ∈ ys, R x y := by
  intro xs
  induction xs with
  | nil => intro ys _ x hx; cases hx
  | cons a rest ih =>
    intro ys hfa x hx
    cases hfa with
    | cons hab htail =>
      rename_i b bs
      rcases List.mem_cons.mp hx with rfl | hx2
      · exact ⟨b, by simp, hab⟩
      · obtain ⟨y, hy, hr⟩ := ih htail x hx2
        exact ⟨y, by simp [hy], hr⟩

theorem docEq_refl_string (s : String) :
    docEq (PrefabValue.string s) (PrefabValue.string s) = true := by
  simp only [docEq, docSize]
  simp only [docEqFuel]
  exact beq_self_eq_true s

theorem read_alloc_mid (h1 : Heap) (val : Value) (t : Heap) :
    Heap.read (h1 ++ [val] ++ t) h1.length = some val :=
  Heap.read_append (h1 ++ [val]) t h1.length val (Heap.read_alloc_self h1 val)

end ScriptFlow


namespace ScriptFlow

theorem roundTripAux : ∀ n : Nat,
    (∀ d, docSize d ≤ n → docWF d = true → ∀ h : Heap,
      ∃ val ext, Value.fromPrefab d h = COut.ok (val, h ++ ext) ∧
        ∀ hrest, ∃ fuel d2, Value.intoPrefab fuel (h ++ ext ++ hrest) val = some d2 ∧
          docEq d2 d = true) ∧
    (∀ items, docSizeList items ≤ n → docWFList items = true → ∀ h : Heap,
      ∃ rs ext, fromPrefabSeq items h = COut.ok (rs, h ++ ext) ∧
        List.Forall₂ (fun r dorig => CellRT (h ++ ext) r dorig) rs items) ∧
    (∀ entries, docSizeMap entries ≤ n → docWFMap entries = true →
      ∀ (acc : List (String × Nat)) (h : Heap),
        (∀ e ∈ entries, ∀ ks, e.1 = PrefabValue.string ks → ks ∉ acc.map Prod.fst) →
        ∃ ps ext, fromPrefabMap entries acc h = COut.ok (ps, h ++ ext) ∧
          ps.length = acc.length + entries.length ∧
          ∀ pr ∈ ps, pr ∈ acc ∨
            ∃ e ∈ entries, e.1 = PrefabValue.string pr.1 ∧ CellRT (h ++ ext) pr.2 e.2) := by
  intro n
  induction n with
  | zero =>
    refine ⟨?_, ?_, ?_⟩
    · intro d hsz
      exfalso
      cases d <;> simp only [docSize] at hsz <;> omega
    · intro items hsz _ h
      cases items with
      | nil => exact ⟨[], [], by simp [fromPrefabSeq], List.Forall₂.nil⟩
      | cons v rest => simp only [docSizeList] at hsz; omega
    · intro entries hsz _ acc h _
      cases entries with
      | nil => exact ⟨acc, [], by simp [fromPrefabMap], by simp, fun pr hpr => Or.inl hpr⟩
      | cons e rest =>
        obtain ⟨k, v⟩ := e
        simp only [docSizeMap] at hsz
        omega
  | succ m ih =>
    obtain ⟨ihd, ihs, ihm⟩ := ih
    refine ⟨?_, ?_, ?_⟩
    · intro d hsz hwf h
      cases d with
      | null =>
        refine ⟨Value.None, [], by simp [Value.fromPrefab], fun hrest => ?_⟩
        exact ⟨1, PrefabValue.null, rfl, rfl⟩
      | bool b =>
        refine ⟨Value.Bool b, [], by simp [Value.fromPrefab], fun hrest => ?_⟩
        refine ⟨1, PrefabValue.bool b, rfl, ?_⟩
        simp only [docEq, docSize]
        simp only [docEqFuel]
        exact beq_self_eq_true b
      | number nn =>
        refine ⟨Value.Number nn, [], by simp [Value.fromPrefab], fun hrest => ?_⟩
        refine ⟨1, PrefabValue.number nn, rfl, ?_⟩
        simp only [docEq, docSize]
        simp only [docEqFuel]
        exact beq_self_eq_true nn
      | string ss =>
        refine ⟨Value.String ss, [], by simp [Value.fromPrefab], fun hrest => ?_⟩
        exact ⟨1, PrefabValue.string ss, rfl, docEq_refl_string ss⟩
      | sequence items =>
        simp only [docSize] at hsz
        have hwl : docWFList items = true := by simpa [docWF] using hwf
        obtain ⟨rs, ext, hseq, hfa⟩ := ihs items (by omega) hwl h
        refine ⟨Value.List rs, ext, ?_, ?_⟩
        · simp only [Value.fromPrefab, hseq]
        · intro hrest
          obtain ⟨fuel, ds, hds, hfa2⟩ := intoPrefabRefs_of_cells (h ++ ext) rs items hfa hrest
          refine ⟨fuel + 1, PrefabValue.sequence ds, ?_, ?_⟩
          · simp only [Value.intoPrefab, hds]
          · have hF : docSize (PrefabValue.sequence ds) + docSize (PrefabValue.sequence items) =
                (docSizeList ds + docSizeList items + 1) + 1 := by
              simp only [docSize]; omega
            simp only [docEq]
            rw [hF]
            simp only [docEqFuel]
            exact docEqListFuel_of_forall2 ds items hfa2 _ (by omega)
      | mapping entries =>
        simp only [docSize] at hsz
        have hwm : docWFMap entries = true := by simpa [docWF] using hwf
        obtain ⟨ps, ext, hmap, hlen, hmem⟩ := ihm entries (by omega) hwm [] h (by simp)
        refine ⟨Value.Object ps, ext, ?_, ?_⟩
        · simp only [Value.fromPrefab, hmap]
        · intro hrest
          obtain ⟨fuel, es, hes, hfa2⟩ := intoPrefabEntries_of_cells (h ++ ext)
            (fun pr dorig => ∃ e ∈ entries, e.1 = PrefabValue.string pr.1 ∧ e.2 = dorig) ps
            (fun pr hpr => by
              rcases hmem pr hpr with hacc | ⟨e, he, hkey, hcell⟩
              · cases hacc
              · exact ⟨e.2, hcell, e, he, hkey, rfl⟩) hrest
          refine ⟨fuel + 1, PrefabValue.mapping es, ?_, ?_⟩
          · simp only [Value.intoPrefab, hes]
          · have hlen2 : es.length = entries.length := by
              rw [hfa2.length_eq, hlen]
              simp
            have hsub : ∀ e2 ∈ es, ∃ e ∈ entries,
                docEq e2.1 e.1 = true ∧ docEq e2.2 e.2 = true := by
              intro e2 he2
              obtain ⟨pr, hpr, hkey2, dorig, ⟨e, he, hkey, hde⟩, heq⟩ :=
                forall2_mem_left hfa2 e2 he2
              refine ⟨e, he, ?_, ?_⟩
              · rw [hkey2, hkey]
                exact docEq_refl_string pr.1
              · rw [← hde] at heq
                exact heq
            have hF : docSize (PrefabValue.mapping es) + docSize (PrefabValue.mapping entries) =
                (docSizeMap es + docSizeMap entries + 1) + 1 := by
              simp only [docSize]; omega
            simp only [docEq]
            rw [hF]
            simp only [docEqFuel, Bool.and_eq_true]
            refine ⟨?_, ?_⟩
            · simp [hlen2]
            · exact docEqMapSubFuel_of_forall es entries hsub _ (by omega)
    · intro items hsz hwl h
      cases items with
      | nil => exact ⟨[], [], by simp [fromPrefabSeq], List.Forall₂.nil⟩
      | cons v rest =>
        simp only [docSizeList] at hsz
        simp only [docWFList, Bool.and_eq_true] at hwl
        obtain ⟨val, ext1, hfp, hrt⟩ := ihd v (by omega) hwl.1 h
        obtain ⟨rs2, ext2, hfs, hfa⟩ := ihs rest (by omega) hwl.2 (h ++ ext1 ++ [val])
        refine ⟨(h ++ ext1).length :: rs2, ext1 ++ [val] ++ ext2, ?_, ?_⟩
        · simp only [fromPrefabSeq, hfp, Heap.alloc, hfs]
          simp [List.append_assoc]
        · refine List.Forall₂.cons ?_ ?_
          · intro hrest
            obtain ⟨fuel, d2, hinto, heq⟩ := hrt ([val] ++ ext2 ++ hrest)
            refine ⟨fuel, val, d2, ?_, ?_, heq⟩
            · have hE : h ++ (ext1 ++ [val] ++ ext2) ++ hrest =
                  (h ++ ext1) ++ [val] ++ (ext2 ++ hrest) := by
                simp [List.append_assoc]
              rw [hE]
              exact read_alloc_mid (h ++ ext1) val (ext2 ++ hrest)
            · have hE : h ++ (ext1 ++ [val] ++ ext2) ++ hrest =
                  h ++ ext1 ++ ([val] ++ ext2 ++ hrest) := by
                simp [List.append_assoc]
              rw [hE]
              exact hinto
          · have hE : (h ++ ext1 ++ [val]) ++ ext2 = h ++ (ext1 ++ [val] ++ ext2) := by
              simp [List.append_assoc]
            rw [hE] at hfa
            exact hfa
    · intro entries hsz hwm acc h hdisj
      cases entries with
      | nil => exact ⟨acc, [], by simp [fromPrefabMap], by simp, fun pr hpr => Or.inl hpr⟩
      | cons e rest =>
        obtain ⟨ke, ve⟩ := e
        cases ke with
        | null => simp [docWFMap] at hwm
        | bool b => simp [docWFMap] at hwm
        | number nn => simp [docWFMap] at hwm
        | sequence its => simp [docWFMap] at hwm
        | mapping ents => simp [docWFMap] at hwm
        | string ks =>
          simp only [docWFMap, Bool.and_eq_true] at hwm
          simp only [docSizeMap] at hsz
          have hkne : ∀ e2 ∈ rest, ∀ ks2, e2.1 = PrefabValue.string ks2 → ks2 ≠ ks := by
            intro e2 he2 ks2 hk2 hcontra
            have hany : rest.any (fun e =>
                match e.1 with
                | PrefabValue.string ks3 => ks3 == ks
                | _ => false) = false := by
              have := hwm.1.1
              rwa [Bool.not_eq_true'] at this
            rw [List.any_eq_false] at hany
            have hfalse := hany e2 he2
            rw [hk2] at hfalse
            simp only [hcontra] at hfalse
            simp at hfalse
          obtain ⟨val, ext1, hfp, hrt⟩ := ihd ve (by omega) hwm.1.2 h
          have hka : ks ∉ acc.map Prod.fst :=
            hdisj (PrefabValue.string ks, ve) (by simp) ks rfl
          have hdisj2 : ∀ e2 ∈ rest, ∀ ks2, e2.1 = PrefabValue.string ks2 →
              ks2 ∉ (btreeInsert ks (h ++ ext1).length acc).map Prod.fst := by
            intro e2 he2 ks2 hk2 hin
            obtain ⟨pr, hpr, hpreq⟩ := List.mem_map.mp hin
            rcases mem_btreeInsert ks (h ++ ext1).length acc pr hpr with heq | hacc
            · apply hkne e2 he2 ks2 hk2
              rw [← hpreq, heq]
            · exact hdisj e2 (by simp [he2]) ks2 hk2 (hpreq ▸ List.mem_map_of_mem Prod.fst hacc)
          obtain ⟨ps, ext2, hfm, hlen, hmem⟩ := ihm rest (by omega) hwm.2
            (btreeInsert ks (h ++ ext1).length acc) (h ++ ext1 ++ [val]) hdisj2
          refine ⟨ps, ext1 ++ [val] ++ ext2, ?_, ?_, ?_⟩
          · simp only [fromPrefabMap, hfp, Heap.alloc, hfm]
            simp [List.append_assoc]
          · rw [hlen, btreeInsert_length ks (h ++ ext1).length acc hka]
            simp only [List.length_cons]
            omega
          · intro pr hpr
            rcases hmem pr hpr with hacc2 | ⟨e2, he2, hkey, hcell⟩
            · rcases mem_btreeInsert ks (h ++ ext1).length acc pr hacc2 with heq | hacc
              · right
                refine ⟨(PrefabValue.string ks, ve), by simp, by rw [heq], ?_⟩
                rw [heq]
                intro hrest
                obtain ⟨fuel, d2, hinto, heq2⟩ := hrt ([val] ++ ext2 ++ hrest)
                refine ⟨fuel, val, d2, ?_, ?_, heq2⟩
                · have hE : h ++ (ext1 ++ [val] ++ ext2) ++ hrest =
                      (h ++ ext1) ++ [val] ++ (ext2 ++ hrest) := by
                    simp [List.append_assoc]
                  rw [hE]
                  exact read_alloc_mid (h ++ ext1) val (ext2 ++ hrest)
                · have hE : h ++ (ext1 ++ [val] ++ ext2) ++ hrest =
                      h ++ ext1 ++ ([val] ++ ext2 ++ hrest) := by
                    simp [List.append_assoc]
                  rw [hE]
                  exact hinto
              · exact Or.inl hacc
            · right
              refine ⟨e2, by simp [he2], hkey, ?_⟩
              have hE : (h ++ ext1 ++ [val]) ++ ext2 = h ++ (ext1 ++ [val] ++ ext2) := by
                simp [List.append_assoc]
              rw [hE] at hcell
              exact hcell

end ScriptFlow


namespace ScriptFlow

/-- C9.  Round trip: converting a well-formed external interchange
document (every mapping has string keys with no key repeated) to a
`Value` succeeds, growing the heap only by freshly allocated cells, and
converting the resulting value back yields a document equal to the
original. -/
theorem prefab_round_trip (d : PrefabValue) (h : Heap) (hwf : docWF d = true) :
    ∃ val ext, Value.fromPrefab d h = COut.ok (val, h ++ ext) ∧
      ∃ fuel d2, Value.intoPrefab fuel (h ++ ext) val = some d2 ∧ docEq d2 d = true := by
  obtain ⟨val, ext, hfp, hrt⟩ := (roundTripAux (docSize d)).1 d (Nat.le_refl _) hwf h
  obtain ⟨fuel, d2, hinto, heq⟩ := hrt []
  rw [List.append_nil] at hinto
  exact ⟨val, ext, hfp, fuel, d2, hinto, heq⟩

def c9doc : PrefabValue :=
  PrefabValue.mapping
    [ (PrefabValue.string "b", PrefabValue.number 2),
      (PrefabValue.string "a",
        PrefabValue.sequence [PrefabValue.bool true, PrefabValue.null]) ]

theorem prefab_round_trip_witness :
    docWF c9doc = true ∧
    ∃ val ext, Value.fromPrefab c9doc [] = COut.ok (val, [] ++ ext) ∧
      ∃ fuel d2, Value.intoPrefab fuel ([] ++ ext) val = some d2 ∧ docEq d2 c9doc = true :=
  ⟨by decide, prefab_round_trip c9doc [] (by decide)⟩

end ScriptFlow
